import Mathlib

/-!
Shallow embedding of `src/jsonsql/jsonsql.py` (class `JsonSQL`): a compiler
from JSON-structured query descriptions to parameterized SQL text plus an
ordered parameter sequence, with an allow/deny policy on named entities.

JSON-compatible Python values are modelled by `Val`; Python dicts are
association lists in insertion order (Python dicts are ordered and, coming
from JSON, have unique string keys).  Fallible Python code (exceptions) is
modelled by `Except String`, carrying the exception text where a theorem
depends on it (the `ValueError` messages built by the source) and a bare
exception-class name (for example "TypeError") where no theorem does.
-/

namespace JsonSQLModel

/-- A JSON-compatible Python value.  Python `bool` is a subclass of `int`;
that quirk is modelled inside `pyIsinstance` and the `with_values`
substitution, not in the data type. -/
inductive Val where
  | vNull : Val
  | vBool (b : Bool) : Val
  | vInt (n : Int) : Val
  | vStr (s : String) : Val
  | vList (l : List Val) : Val
  | vDict (l : List (String × Val)) : Val
deriving Repr

open Val

/-- A Python runtime `type` object used as a column-kind declaration
(`allowed_columns` maps column names to types such as `int`, `str`,
`object`). -/
inductive PyType where
  | tInt : PyType
  | tStr : PyType
  | tBool : PyType
  | tList : PyType
  | tObject : PyType
deriving Repr, DecidableEq

open PyType

/-- Python `str(type)`: for example `str(int)` is `<class 'int'>`.  Used in
the diagnostic of `logic_parse` line 384. -/
def squote : String := String.singleton (Char.ofNat 39)

def pyTypeStr : PyType → String
  | tInt => "<class " ++ squote ++ "int" ++ squote ++ ">"
  | tStr => "<class " ++ squote ++ "str" ++ squote ++ ">"
  | tBool => "<class " ++ squote ++ "bool" ++ squote ++ ">"
  | tList => "<class " ++ squote ++ "list" ++ squote ++ ">"
  | tObject => "<class " ++ squote ++ "object" ++ squote ++ ">"

/-- Python `isinstance(value, t)`.  `isinstance(True, int)` is true because
`bool` subclasses `int`; every value is an instance of `object`. -/
def pyIsinstance : Val → PyType → Bool
  | _, tObject => true
  | vInt _, tInt => true
  | vBool _, tInt => true
  | vBool _, tBool => true
  | vStr _, tStr => true
  | vList _, tList => true
  | _, _ => false

/-- Python truthiness of a value. -/
def pyTruthy : Val → Bool
  | vNull => false
  | vBool b => b
  | vInt n => n != 0
  | vStr s => !s.isEmpty
  | vList l => !l.isEmpty
  | vDict l => !l.isEmpty

def isVList : Val → Bool
  | vList _ => true
  | _ => false

def isVDict : Val → Bool
  | vDict _ => true
  | _ => false

/-- Python `v == s` for a string literal `s`: only equal strings compare
equal; values of other types are never `==` to a `str`. -/
def pyEqS (v : Val) (s : String) : Bool :=
  match v with
  | vStr t => t == s
  | _ => false

/-- Python `v in l` for a list/tuple `l` of string literals (membership is
by `==`). -/
def strMemV (v : Val) (l : List String) : Bool :=
  match v with
  | vStr t => l.contains t
  | _ => false

/-- First-match lookup in a dict (Python dicts have unique keys, so this is
plain `d[k]` / `d.get(k)`). -/
def dictGet (d : List (String × Val)) (k : String) : Option Val :=
  (d.find? (fun p => p.1 == k)).map (fun p => p.2)

def dictGetD (d : List (String × Val)) (k : String) (dflt : Val) : Val :=
  (dictGet d k).getD dflt

def hasKey (d : List (String × Val)) (k : String) : Bool :=
  d.any (fun p => p.1 == k)

def hasKeyT (d : List (String × PyType)) (k : String) : Bool :=
  d.any (fun p => p.1 == k)

def lookupT (d : List (String × PyType)) (k : String) : Option PyType :=
  (d.find? (fun p => p.1 == k)).map (fun p => p.2)

/-- Python `str(n)` for an int: digits of the absolute value, preceded by a
minus sign when negative.  Written with an explicit digit table so facts
about its characters are provable by case analysis. -/
def digitChar (d : Nat) : Char :=
  match d with
  | 0 => '0'
  | 1 => '1'
  | 2 => '2'
  | 3 => '3'
  | 4 => '4'
  | 5 => '5'
  | 6 => '6'
  | 7 => '7'
  | 8 => '8'
  | _ => '9'

def natStrAux : Nat → Nat → List Char
  | 0, _ => []
  | fuel + 1, n =>
      if n < 10 then [digitChar n]
      else natStrAux fuel (n / 10) ++ [digitChar (n % 10)]

def natStr (n : Nat) : String := ⟨natStrAux (n + 1) n⟩

def intStr (n : Int) : String :=
  if n < 0 then "-" ++ natStr n.natAbs else natStr n.natAbs

mutual

/-- Python `repr(v)` (also `str(v)` for non-string values).  The
representation of strings nested inside lists/dicts is approximated as
plain single-quoting without escape processing; no claim in this
development depends on that corner. -/
def pyRepr : Val → String
  | vNull => "None"
  | vBool true => "True"
  | vBool false => "False"
  | vInt n => intStr n
  | vStr s => squote ++ s ++ squote
  | vList l => "[" ++ pyReprList l ++ "]"
  | vDict d => "\x7b" ++ pyReprDict d ++ "\x7d"

def pyReprList : List Val → String
  | [] => ""
  | [v] => pyRepr v
  | v :: w :: rest => pyRepr v ++ ", " ++ pyReprList (w :: rest)

def pyReprDict : List (String × Val) → String
  | [] => ""
  | [(k, v)] => squote ++ k ++ squote ++ ": " ++ pyRepr v
  | (k, v) :: p :: rest =>
      squote ++ k ++ squote ++ ": " ++ pyRepr v ++ ", " ++ pyReprDict (p :: rest)

end

/-- Python `str(v)` / f-string interpolation of a value. -/
def pyStr : Val → String
  | vStr s => s
  | v => pyRepr v

/-- Python `s.upper()` (ASCII; the source never feeds it non-ASCII input in
any behavior a claim touches).  Written as a direct character map. -/
def pyUpper (s : String) : String := ⟨s.data.map Char.toUpper⟩

def pyLower (s : String) : String := ⟨s.data.map Char.toLower⟩

/-- Python `sep.join(strings)`. -/
def pyJoin (sep : String) : List String → String
  | [] => ""
  | [s] => s
  | s :: w :: rest => s ++ sep ++ pyJoin sep (w :: rest)

/-- The policy configuration of a `JsonSQL` instance after `__init__`.
`allowed_tables` holds the keys of the constructed table dict (enhanced
table declarations map each table name to a column list; only the keys are
consulted by `_is_entity_allowed`-style membership). -/
structure Cfg where
  allowed_queries : List String
  allowed_items : List String
  allowed_tables : List String
  allowed_connections : List String
  allowed_columns : List (String × PyType)
  allowed_joins : List String
  not_allowed_queries : List String
  not_allowed_items : List String
  not_allowed_tables : List String
  not_allowed_connections : List String
  not_allowed_columns : List String
  not_allowed_joins : List String

def LOGICAL : List String := ["AND", "OR"]
def COMPARISON : List String := ["=", ">", "<", ">=", "<=", "<>", "!="]
def SPECIAL_COMPARISON : List String := ["BETWEEN", "IN"]
def AGGREGATES : List String := ["MIN", "MAX", "SUM", "AVG", "COUNT"]

/-- `JsonSQL._is_entity_allowed` (jsonsql.py lines 92-128): blacklist
first, then strict-empty, then wildcard, then explicit whitelist.  The
entity argument is kept as a `Val` because some call sites pass raw JSON
values; Python `in` compares with `==`, under which only strings match the
string lists. -/
def is_entity_allowed (entity : Val) (allowed_list : List String)
    (not_allowed_list : List String) : Bool :=
  if strMemV entity not_allowed_list then false
  else if allowed_list.isEmpty then false
  else if allowed_list.contains "*" then true
  else strMemV entity allowed_list

/-- `JsonSQL._is_column_allowed` (lines 145-167). -/
def is_column_allowed (cfg : Cfg) (column : Val) : Bool :=
  if strMemV column cfg.not_allowed_columns then false
  else if cfg.allowed_columns.isEmpty then false
  else if hasKeyT cfg.allowed_columns "*" then true
  else match column with
       | vStr s => hasKeyT cfg.allowed_columns s
       | _ => false

/-- Python `s.isdigit()` restricted to ASCII digits. -/
def pyIsdigit (s : String) : Bool := !s.isEmpty && s.data.all Char.isDigit

def dquoteS : String := String.singleton (Char.ofNat 34)

/-- `JsonSQL.is_another_column` (lines 183-227).  The enclosing
`try/except (TypeError, AttributeError)` makes every non-string value
yield `False` (string methods raise `AttributeError`); this is folded into
the match. -/
def is_another_column (cfg : Cfg) (value : Val) : Bool :=
  match value with
  | vStr s =>
      if !hasKeyT cfg.allowed_columns "*" then
        is_column_allowed cfg (vStr s)
      else if cfg.not_allowed_columns.contains s then false
      else
        let explicit := cfg.allowed_columns.filter (fun p => p.1 != "*")
        if !explicit.isEmpty && hasKeyT explicit s then true
        else if pyIsdigit s || s.contains ' ' ||
                (pyLower s == "true" || pyLower s == "false" || pyLower s == "null") ||
                (s.startsWith dquoteS && s.endsWith dquoteS) ||
                (s.startsWith squote && s.endsWith squote) then false
        else true
  | _ => false

/-- Exception-raising Python code: `Except.error` carries the exception
text (exact for the `ValueError(...)` messages the source builds, a bare
class name for builtin errors no theorem depends on). -/
abbrev PyM := Except String

/-- Python `list(x)[0]`: first key of a dict, first element of a list,
first character of a string; `IndexError` when empty, `TypeError` when not
iterable. -/
def listFirst : Val → PyM Val
  | vDict [] => throw "IndexError"
  | vDict (p :: _) => pure (vStr p.1)
  | vList [] => throw "IndexError"
  | vList (v :: _) => pure v
  | vStr s =>
      match s.data with
      | [] => throw "IndexError"
      | c :: _ => pure (vStr (String.singleton c))
  | _ => throw "TypeError"

/-- Python `x[k]` subscription as the source uses it. -/
def pyIndex : Val → Val → PyM Val
  | vDict d, vStr k =>
      match dictGet d k with
      | some v => pure v
      | none => throw "KeyError"
  | vDict _, vList _ => throw "TypeError"
  | vDict _, vDict _ => throw "TypeError"
  | vDict _, _ => throw "KeyError"
  | vList l, vInt i =>
      if h : 0 ≤ i ∧ i.toNat < l.length then pure (l.get ⟨i.toNat, h.2⟩)
      else throw "IndexError"
  | vList _, _ => throw "TypeError"
  | vStr s, vInt i =>
      if h : 0 ≤ i ∧ i.toNat < s.data.length then
        pure (vStr (String.singleton (s.data.get ⟨i.toNat, h.2⟩)))
      else throw "IndexError"
  | _, _ => throw "TypeError"

/-- Python `len(x)`. -/
def pyLen : Val → PyM Nat
  | vStr s => pure s.length
  | vList l => pure l.length
  | vDict d => pure d.length
  | _ => throw "TypeError"

/-- Python `tuple(x)` / iteration over `x`. -/
def pyToList : Val → PyM (List Val)
  | vList l => pure l
  | vStr s => pure (s.data.map (fun c => vStr (String.singleton c)))
  | vDict d => pure (d.map (fun p => vStr p.1))
  | _ => throw "TypeError"

/-- `JsonSQL.is_valid_aggregate` (lines 229-238).  `list(aggregate)[0]` on
an empty dict raises `IndexError`. -/
def is_valid_aggregate (cfg : Cfg) (aggregate : Val) : PyM Bool :=
  match aggregate with
  | vDict [] => throw "IndexError"
  | vDict ((operation, value) :: _) =>
      if !AGGREGATES.contains operation then pure false
      else pure (is_another_column cfg value)
  | _ => pure false

/-- `JsonSQL.is_valid_value` (lines 240-250). -/
def is_valid_value (cfg : Cfg) (value : Val) (valuetype : PyType) : PyM Bool :=
  match value with
  | vDict _ => is_valid_aggregate cfg value
  | _ =>
      if !isVList value && is_another_column cfg value then pure true
      else pure (pyIsinstance value valuetype)

/-- The `all_values_allowed` inner helper of `is_special_comparison`
(lines 268-283): first invalid entry stops the loop. -/
def all_values_allowed (cfg : Cfg) : List Val → PyType → PyM Bool
  | [], _ => pure true
  | v :: vs, t => do
      let b ← is_valid_value cfg v t
      if b then all_values_allowed cfg vs t else pure false

/-- `JsonSQL.is_special_comparison` (lines 252-294). -/
def is_special_comparison (cfg : Cfg) (comparator : Val) (value : Val)
    (valuetype : PyType) : PyM Bool :=
  match value with
  | vList l => do
      let ok ← all_values_allowed cfg l valuetype
      if !ok then pure false
      else if pyEqS comparator "BETWEEN" && l.length == 2 then pure true
      else if pyEqS comparator "IN" && decide (l.length > 0) then pure true
      else pure false
  | _ => pure false

/-- The column-kind resolution `ALLOWED_COLUMNS.get(column,
ALLOWED_COLUMNS.get("*", object))` (lines 318-319, 382-383). -/
def colType (cfg : Cfg) (column : String) : PyType :=
  match lookupT cfg.allowed_columns column with
  | some t => t
  | none =>
      match lookupT cfg.allowed_columns "*" with
      | some t => t
      | none => tObject

/-- `JsonSQL.is_valid_comparison` (lines 296-323). -/
def is_valid_comparison (cfg : Cfg) (column : String) (comparison : Val) :
    PyM Bool := do
  let comparator ← listFirst comparison
  if !strMemV comparator COMPARISON && !strMemV comparator SPECIAL_COMPARISON then
    pure false
  else do
    let value ← pyIndex comparison comparator
    let column_type := colType cfg column
    let b ← is_valid_value cfg value column_type
    if b then pure true
    else is_special_comparison cfg comparator value column_type

/-- `JsonSQL.get_sql_comparator` (lines 325-336). -/
def get_sql_comparator (comparator : Val) : Val :=
  if pyEqS comparator "!=" then vStr "<>" else comparator

/-- `JsonSQL.is_value_in_allowed_categories` (lines 338-354). -/
def is_value_in_allowed_categories (cfg : Cfg) (value : String) : Bool :=
  is_column_allowed cfg (vStr value) || LOGICAL.contains value ||
    (SPECIAL_COMPARISON.contains value || COMPARISON.contains value)

/-- The result of `JsonSQL.logic_parse`: a success pair, a failure pair, a
fall-off-the-end `None`, or an uncaught exception. -/
inductive LPResult where
  | ok (sql : String) (params : List Val) : LPResult
  | err (msg : String) : LPResult
  | nores : LPResult
  | raised (e : String) : LPResult
deriving Repr

/-- Lines 413-449 of `logic_parse`: the aggregate branch
(`list(op)[0] in AGGREGATES`), then the `BETWEEN`/`IN` special branch,
then the `Comparitor Error` fallthrough. -/
def logic_parse_agg_special (value : String) (comparator : Val)
    (adjusted : Val) (op : Val) : LPResult :=
  match listFirst op with
  | .error e => .raised e
  | .ok k =>
      if strMemV k AGGREGATES then
        match pyIndex op k with
        | .error e => .raised e
        | .ok arg =>
            .ok (value ++ " " ++ pyStr adjusted ++ " " ++ pyStr k ++ "(" ++ pyStr arg ++ ")") []
      else if strMemV comparator SPECIAL_COMPARISON then
        if pyEqS comparator "BETWEEN" then
          match pyToList op with
          | .error e => .raised e
          | .ok elems => .ok (value ++ " BETWEEN ? AND ?") elems
        else if pyEqS comparator "IN" then
          match pyLen op with
          | .error e => .raised e
          | .ok n =>
              let placeholders := if n == 1 then "?" else pyJoin "," (List.replicate n "?")
              match pyToList op with
              | .error e => .raised e
              | .ok elems => .ok (value ++ " IN (" ++ placeholders ++ ")") elems
        else .err ("Comparitor Error - " ++ pyStr comparator)
      else .err ("Comparitor Error - " ++ pyStr comparator)

/-- Lines 386-449 of `logic_parse`: the branches taken once
`is_valid_comparison` has returned `True`.  Branch order follows the
source: plain-comparison with a literal operand, comparison with a column
reference, then `logic_parse_agg_special`.  The `isinstance(..., tuple)`
test on line 400 is always false for JSON input (JSON has no tuples), so
the parameter tuple is the one-element `(operand,)`. -/
def logic_parse_success (cfg : Cfg) (value : String) (payload : Val) : LPResult :=
  match listFirst payload with
  | .error e => .raised e
  | .ok comparator =>
      let adjusted := get_sql_comparator comparator
      if strMemV comparator COMPARISON then
        match pyIndex payload comparator with
        | .error e => .raised e
        | .ok op =>
            if !is_another_column cfg op && !isVDict op then
              .ok (value ++ " " ++ pyStr adjusted ++ " ?") [op]
            else if is_another_column cfg op then
              .ok (value ++ " " ++ pyStr adjusted ++ " " ++ pyStr op) []
            else logic_parse_agg_special value comparator adjusted op
      else
        match pyIndex payload comparator with
        | .error e => .raised e
        | .ok op => logic_parse_agg_special value comparator adjusted op

/-- Lines 371-384 of `logic_parse`: the diagnostic built when the key is a
declared column but `is_valid_comparison` is false.  A dict payload here is
necessarily non-empty, because `is_valid_comparison` already raised on an
empty one; the impossible case is mapped to the same `IndexError`. -/
def logic_parse_col_error (cfg : Cfg) (value : String) (payload : Val) : LPResult :=
  match payload with
  | vDict [] => .raised "IndexError"
  | vDict ((value0, _) :: _) =>
      if !COMPARISON.contains value0 && !SPECIAL_COMPARISON.contains value0 then
        .err ("Non Valid comparitor - " ++ value0)
      else
        .err ("Bad " ++ value ++ ", non " ++ pyTypeStr (colType cfg value))
  | _ => .err ("Bad " ++ value ++ ", non " ++ pyTypeStr (colType cfg value))

mutual

/-- `JsonSQL.logic_parse` (lines 356-482).  Non-dict inputs reflect what
Python does to them: `len` fails on scalars (`TypeError`); an empty
list/string passes the length-0 check; `.keys()` fails on a non-empty
list/string (`AttributeError`).  A non-empty dict follows the source
branch chain; when no branch returns, the function falls off the end
(`nores`, Python `None`). -/
def logic_parse (cfg : Cfg) : Val → LPResult
  | vNull => .raised "TypeError"
  | vBool _ => .raised "TypeError"
  | vInt _ => .raised "TypeError"
  | vStr s => if s.isEmpty then .err "Nothing To Compute" else .raised "AttributeError"
  | vList l => if l.isEmpty then .err "Nothing To Compute" else .raised "AttributeError"
  | vDict [] => .err "Nothing To Compute"
  | vDict ((value, payload) :: _) =>
      if !is_value_in_allowed_categories cfg value then
        .err ("Invalid Input - " ++ value)
      else if LOGICAL.contains value && !isVList payload then
        .err ("Bad " ++ value ++ ", non list")
      else if hasKeyT cfg.allowed_columns value then
        match is_valid_comparison cfg value payload with
        | .error e => .raised e
        | .ok true => logic_parse_success cfg value payload
        | .ok false => logic_parse_col_error cfg value payload
      else
        match is_valid_comparison cfg value payload with
        | .error e => .raised e
        | .ok true => logic_parse_success cfg value payload
        | .ok false =>
            match payload with
            | vList children =>
                if LOGICAL.contains value then
                  if children.length < 2 then
                    .err "Invalid boolean length, must be >= 2"
                  else
                    match logic_parse_loop cfg children with
                    | .inl stop => stop
                    | .inr frs =>
                        .ok ("(" ++ pyJoin (" " ++ pyUpper value ++ " ")
                               (frs.map (fun p => p.1)) ++ ")")
                          ((frs.map (fun p => p.2)).flatten)
                else .nores
            | _ => .nores

/-- The child loop of the boolean-group branch (lines 455-466): compile
children left to right, stopping at the first one that does not come back
as a success tuple.  A child returning `None` makes `evaluation[0]` raise
`TypeError`; a raising child propagates. -/
def logic_parse_loop (cfg : Cfg) : List Val → Sum LPResult (List (String × List Val))
  | [] => .inr []
  | c :: cs =>
      match logic_parse cfg c with
      | .ok s p =>
          match logic_parse_loop cfg cs with
          | .inl stop => .inl stop
          | .inr rest => .inr ((s, p) :: rest)
      | .err m => .inl (.err m)
      | .nores => .inl (.raised "TypeError")
      | .raised e => .inl (.raised e)

end

/-- One `(operator, value)` item of a condition dict inside
`JsonSQL._parse_logic_condition` (lines 800-814): the `(conditions,
params)` contribution, in order.  Unrecognized operators contribute
nothing; no branch fails.  Note the comparator is emitted verbatim (no
`!=` to `<>` normalization here, unlike `logic_parse`). -/
def plc_one (column : String) (operator : String) (value : Val) :
    List String × List Val :=
  if COMPARISON.contains operator then
    ([column ++ " " ++ operator ++ " ?"], [value])
  else if SPECIAL_COMPARISON.contains operator then
    match value with
    | vList l =>
        if operator == "IN" then
          ([column ++ " IN (" ++ pyJoin "," (List.replicate l.length "?") ++ ")"], l)
        else if operator == "BETWEEN" && l.length == 2 then
          ([column ++ " BETWEEN ? AND ?"], l)
        else ([column ++ " " ++ operator ++ " ?"], [vList l])
    | _ => ([column ++ " " ++ operator ++ " ?"], [value])
  else ([], [])

/-- The inner loop over a condition dict (line 800). -/
def plc_cond_items (column : String) : List (String × Val) → List String × List Val
  | [] => ([], [])
  | (operator, value) :: rest =>
      let r := plc_one column operator value
      let rr := plc_cond_items column rest
      (r.1 ++ rr.1, r.2 ++ rr.2)

/-- The outer loop over `logic.items()` (line 798); non-dict conditions are
skipped by the `isinstance(condition, dict)` guard. -/
def plc_entries : List (String × Val) → List String × List Val
  | [] => ([], [])
  | (column, condition) :: rest =>
      let r := match condition with
               | vDict items => plc_cond_items column items
               | _ => (([] : List String), ([] : List Val))
      let rr := plc_entries rest
      (r.1 ++ rr.1, r.2 ++ rr.2)

/-- `JsonSQL._parse_logic_condition` (lines 788-816).  It consults no
policy configuration at all (only the fixed comparator tuples), and has no
failure result: a truthy non-dict raises `AttributeError` at
`logic.items()`, everything else returns a pair. -/
def parse_logic_condition (logic : Val) : PyM (String × List Val) :=
  if !pyTruthy logic then pure ("", [])
  else match logic with
       | vDict entries =>
           let r := plc_entries entries
           pure (pyJoin " AND " r.1, r.2)
       | _ => throw "AttributeError"

/-- Python `\s` whitespace (ASCII). -/
def isPySpace (c : Char) : Bool :=
  c == ' ' || c == '\t' || c == '\n' || c == '\r' || c == '\x0b' || c == '\x0c'

/-- Substring search: `re.search` of a literal pattern. -/
def hasSubstr (pat : List Char) : List Char → Bool
  | [] => pat.isPrefixOf ([] : List Char)
  | c :: t => pat.isPrefixOf (c :: t) || hasSubstr pat t

/-- Search for the regex `;\s*KW`: some `;` position whose whitespace run
is followed by `KW`.  Dropping the whole run is equivalent to the regex
`\s*` because the keywords start with a non-space character. -/
def semiKw (kw : List Char) : List Char → Bool
  | [] => false
  | c :: rest =>
      (c == ';' && kw.isPrefixOf (rest.dropWhile isPySpace)) || semiKw kw rest

/-- The suspicious-pattern screen of `JsonSQL._validate_join_condition`
(lines 490-504): the eight `re.search` calls, run against
`condition.upper()` with `re.IGNORECASE` — equivalently, the uppercased
patterns against the uppercased text. -/
def suspicious_join_condition (s : String) : Bool :=
  let u := (pyUpper s).data
  semiKw "DROP".data u || semiKw "DELETE".data u ||
    semiKw "INSERT".data u || semiKw "UPDATE".data u ||
    hasSubstr "--".data u || hasSubstr "/*".data u ||
    hasSubstr "XP_".data u || hasSubstr "SP_".data u

/-- `JsonSQL._validate_join_condition` (lines 484-506): falsy or non-string
conditions are rejected outright, otherwise the pattern screen decides. -/
def validate_join_condition (condition : Val) : Bool :=
  match condition with
  | vStr s => if s.isEmpty then false else !suspicious_join_condition s
  | _ => false

/-- `JsonSQL._parse_table_with_alias` (lines 508-518). -/
def parse_table_with_alias : Val → PyM (Val × Val)
  | vStr s => pure (vStr s, vNull)
  | vDict d => pure (dictGetD d "table" (vStr ""), dictGetD d "alias" vNull)
  | v => throw ("Invalid table format: " ++ pyStr v)

/-- `JsonSQL._build_table_clause` (lines 520-525).  The source returns the
raw table value when no alias is present and every caller immediately
embeds the result in an f-string, so the stringification is applied
here. -/
def build_table_clause (table aliasV : Val) : PyM String :=
  if pyTruthy aliasV then
    match table with
    | vStr t => pure (t ++ " AS " ++ pyStr aliasV)
    | _ => throw "TypeError"
  else pure (pyStr table)

/-- One iteration of the join loop in `JsonSQL._parse_joins`
(lines 535-558); the `ValueError` messages are the ones the source
raises. -/
def parse_one_join (cfg : Cfg) (join : Val) : PyM String :=
  match join with
  | vDict d => do
      let jt ← match dictGetD d "type" (vStr "INNER JOIN") with
               | vStr s => pure (pyUpper s)
               | _ => throw "AttributeError"
      if !is_entity_allowed (vStr jt) cfg.allowed_joins cfg.not_allowed_joins then
        throw ("JOIN type not allowed: " ++ jt)
      else do
        let ti ← parse_table_with_alias join
        if !is_entity_allowed ti.1 cfg.allowed_tables cfg.not_allowed_tables then
          throw ("Table not allowed: " ++ pyStr ti.1)
        else do
          let tc ← build_table_clause ti.1 ti.2
          let on_v := dictGetD d "on" (vStr "")
          if pyTruthy on_v && !validate_join_condition on_v then
            throw ("Invalid JOIN condition: " ++ pyStr on_v)
          else
            pure (jt ++ " " ++ tc ++ (if pyTruthy on_v then " ON " ++ pyStr on_v else ""))
  | _ => throw "AttributeError"

def parse_joins_loop (cfg : Cfg) : List Val → PyM (List String)
  | [] => pure []
  | jn :: js => do
      let c ← parse_one_join cfg jn
      let cs ← parse_joins_loop cfg js
      pure (c :: cs)

/-- `JsonSQL._parse_joins` (lines 527-560).  `all_params` is never
appended to, so the parameter component is always empty. -/
def parse_joins (cfg : Cfg) (joins : Val) : PyM (String × List Val) :=
  if !pyTruthy joins then pure ("", [])
  else do
    let jl ← pyToList joins
    let clauses ← parse_joins_loop cfg jl
    pure (pyJoin " " clauses, [])

/-- The result of `JsonSQL.sql_parse`: `(True, sql, params)` or
`(False, message, ())`. -/
inductive SQLResult where
  | ok (sql : String) (params : List Val) : SQLResult
  | fail (msg : String) : SQLResult
deriving Repr

/-- The item-validation loop of `sql_parse` (lines 625-628): the name of
the first disallowed item, if any (non-strings are stringified for the
check). -/
def check_items_loop (cfg : Cfg) : List Val → Option String
  | [] => none
  | item :: rest =>
      let item_name := match item with
                       | vStr s => s
                       | v => pyStr v
      if !is_entity_allowed (vStr item_name) cfg.allowed_items cfg.not_allowed_items then
        some item_name
      else check_items_loop cfg rest

/-- Python `sep.join(list_of_values)`: raises `TypeError` unless every
element is a string. -/
def strList : List Val → PyM (List String)
  | [] => pure []
  | vStr s :: rest => do
      let r ← strList rest
      pure (s :: r)
  | _ :: _ => throw "TypeError"

/-- The `order_by` item loop of `sql_parse` (lines 704-714). -/
def order_items_loop : List Val → PyM (List String)
  | [] => pure []
  | vDict d :: rest => do
      let column := dictGetD d "column" (vStr "")
      let dir ← match dictGetD d "direction" (vStr "ASC") with
                | vStr s => pure (pyUpper s)
                | _ => throw "AttributeError"
      let dir2 := if dir == "ASC" || dir == "DESC" then dir else "ASC"
      let r ← order_items_loop rest
      pure ((pyStr column ++ " " ++ dir2) :: r)
  | item :: rest => do
      let r ← order_items_loop rest
      pure (pyStr item :: r)

/-- Python `isinstance(x, int)` — true for bools as well. -/
def pyIsInt : Val → Bool
  | vInt _ => true
  | vBool _ => true
  | _ => false

def pyIntVal : Val → Int
  | vInt n => n
  | vBool b => if b then 1 else 0
  | _ => 0

/-- Replace the first `?` of `s` (Python `s.replace(c, r, 1)`). -/
def replQ : List Char → List Char → List Char
  | [], _ => []
  | c :: rest, r => if c == '?' then r ++ rest else c :: replQ rest r

def replaceFirstQ (s r : String) : String := ⟨replQ s.data r.data⟩

/-- Python `s.replace("'", "''")`: double every single quote. -/
def doubleSQAux : List Char → List Char
  | [] => []
  | c :: rest =>
      if c == Char.ofNat 39 then c :: c :: doubleSQAux rest
      else c :: doubleSQAux rest

def doubleSQuotes (s : String) : String := ⟨doubleSQAux s.data⟩

/-- One parameter substitution of the `with_values` post-pass
(lines 760-780).  Python checks `isinstance(param, (int, float))` before
`isinstance(param, bool)` and `bool` subclasses `int`, so a boolean lands
in the numeric branch and renders via `str` as `True`/`False`; the
`TRUE`/`FALSE` branch on lines 773-775 is unreachable. -/
def subst_param (sql : String) (p : Val) : String :=
  match p with
  | vNull => replaceFirstQ sql "NULL"
  | vStr s => replaceFirstQ sql (squote ++ doubleSQuotes s ++ squote)
  | vInt n => replaceFirstQ sql (intStr n)
  | vBool b => replaceFirstQ sql (if b then "True" else "False")
  | v => replaceFirstQ sql (squote ++ doubleSQuotes (pyStr v) ++ squote)

def subst_params (sql : String) : List Val → String
  | [] => sql
  | p :: ps => subst_params (subst_param sql p) ps

/-- The FROM resolution of the extended branch (lines 640-655): `inl` is
an early failure message, `inr` the clause text. -/
def from_component (cfg : Cfg) (j : List (String × Val)) : PyM (Sum String String) :=
  if hasKey j "from" then do
    let ti ← parse_table_with_alias (dictGetD j "from" vNull)
    if !is_entity_allowed ti.1 cfg.allowed_tables cfg.not_allowed_tables then
      pure (Sum.inl ("Table not allowed: " ++ pyStr ti.1))
    else do
      let tc ← build_table_clause ti.1 ti.2
      pure (Sum.inr ("FROM " ++ tc))
  else if hasKey j "table" then
    let table := dictGetD j "table" vNull
    if !is_entity_allowed table cfg.allowed_tables cfg.not_allowed_tables then
      pure (Sum.inl ("Table not allowed: " ++ pyStr table))
    else pure (Sum.inr ("FROM " ++ pyStr table))
  else
    pure (Sum.inl ("Missing FROM clause (use " ++ squote ++ "from" ++ squote ++
      " or " ++ squote ++ "table" ++ squote ++ ")"))

/-- The JOIN resolution of the extended branch (lines 658-662). -/
def join_component (cfg : Cfg) (j : List (String × Val)) : PyM (String × List Val) :=
  if hasKey j "joins" then parse_joins cfg (dictGetD j "joins" vNull)
  else pure ("", [])

/-- The WHERE resolution of the extended branch (lines 665-681): a `where`
tree, or the legacy `connection`/`logic` pair; `inl` is an early failure,
`inr` the clause text with its parameters. -/
def where_component (cfg : Cfg) (j : List (String × Val)) :
    PyM (Sum String (String × List Val)) :=
  if hasKey j "where" then do
    let wp ← parse_logic_condition (dictGetD j "where" vNull)
    if wp.1 == "" then pure (Sum.inr ("", []))
    else pure (Sum.inr ("WHERE " ++ wp.1, wp.2))
  else if hasKey j "connection" && hasKey j "logic" then
    let conn := dictGetD j "connection" vNull
    if !is_entity_allowed conn cfg.allowed_connections cfg.not_allowed_connections then
      pure (Sum.inl ("Connection not allowed: " ++ pyStr conn))
    else do
      let lp ← parse_logic_condition (dictGetD j "logic" vNull)
      if lp.1 == "" then pure (Sum.inr ("", []))
      else pure (Sum.inr (pyStr conn ++ " " ++ lp.1, lp.2))
  else pure (Sum.inr ("", []))

/-- The GROUP BY clause (lines 684-688). -/
def group_component (j : List (String × Val)) : PyM String :=
  if hasKey j "group_by" then
    match dictGetD j "group_by" vNull with
    | vList l => do
        let gs ← strList l
        pure ("GROUP BY " ++ pyJoin "," gs)
    | _ => pure ""
  else pure ""

/-- The HAVING clause with its parameters (lines 691-697). -/
def having_component (j : List (String × Val)) : PyM (String × List Val) :=
  if hasKey j "having" then do
    let hp ← parse_logic_condition (dictGetD j "having" vNull)
    if hp.1 == "" then pure ("", [])
    else pure ("HAVING " ++ hp.1, hp.2)
  else pure ("", [])

/-- The ORDER BY clause (lines 700-716). -/
def order_component (j : List (String × Val)) : PyM String :=
  if hasKey j "order_by" then
    match dictGetD j "order_by" vNull with
    | vList l => do
        let os ← order_items_loop l
        if os.isEmpty then pure "" else pure ("ORDER BY " ++ pyJoin "," os)
    | _ => pure ""
  else pure ""

/-- The LIMIT/OFFSET clause (lines 719-727); note `isinstance(x, int)`
admits booleans. -/
def limit_component (j : List (String × Val)) : String :=
  if hasKey j "limit" then
    let lv := dictGetD j "limit" vNull
    if pyIsInt lv && pyIntVal lv > 0 then
      "LIMIT " ++ pyStr lv ++
        (if hasKey j "offset" then
           let ov := dictGetD j "offset" vNull
           if pyIsInt ov && pyIntVal ov ≥ 0 then " OFFSET " ++ pyStr ov else ""
         else "")
    else ""
  else ""

/-- The extended-shape branch of `sql_parse` (lines 637-732 plus the
shared `with_values` tail, lines 757-783): the clause components above,
assembled in the fixed order, empty parts dropped, parts joined by single
spaces; parameters are joins (always none), then WHERE, then HAVING. -/
def sql_parse_extended (cfg : Cfg) (j : List (String × Val)) (with_values : Bool)
    (select_clause : String) : PyM SQLResult := do
  let fromRes ← from_component cfg j
  match fromRes with
  | Sum.inl m => return SQLResult.fail m
  | Sum.inr from_clause => do
    let joinPair ← join_component cfg j
    let whereRes ← where_component cfg j
    match whereRes with
    | Sum.inl m => return SQLResult.fail m
    | Sum.inr wherePair => do
      let group_by_clause ← group_component j
      let havingPair ← having_component j
      let order_by_clause ← order_component j
      let all_params := joinPair.2 ++ wherePair.2 ++ havingPair.2
      let parts := [select_clause, from_clause, joinPair.1, wherePair.1,
                    group_by_clause, havingPair.1, order_by_clause, limit_component j]
      let sql := pyJoin " " (parts.filter (fun p => p != ""))
      if with_values && !all_params.isEmpty then
        return SQLResult.ok (subst_params sql all_params) []
      else return SQLResult.ok sql all_params

/-- The legacy-shape branch of `sql_parse` (lines 734-755 plus the shared
`with_values` tail). -/
def sql_parse_legacy (cfg : Cfg) (j : List (String × Val)) (with_values : Bool)
    (select_clause : String) : PyM SQLResult := do
  if !hasKey j "table" then return SQLResult.fail "Missing required field: table"
  else do
    let table := dictGetD j "table" vNull
    if !is_entity_allowed table cfg.allowed_tables cfg.not_allowed_tables then
      return SQLResult.fail ("Table not allowed: " ++ pyStr table)
    else do
      let base := select_clause ++ " FROM " ++ pyStr table
      if hasKey j "connection" && hasKey j "logic" then
        let conn := dictGetD j "connection" vNull
        if !is_entity_allowed conn cfg.allowed_connections cfg.not_allowed_connections then
          return SQLResult.fail ("Connection not allowed: " ++ pyStr conn)
        else do
          let lp ← parse_logic_condition (dictGetD j "logic" vNull)
          let sql := if lp.1 == "" then base else base ++ " " ++ pyStr conn ++ " " ++ lp.1
          let all_params := if lp.1 == "" then ([] : List Val) else lp.2
          if with_values && !all_params.isEmpty then
            return SQLResult.ok (subst_params sql all_params) []
          else return SQLResult.ok sql all_params
      else return SQLResult.ok base []

/-- The body of `JsonSQL.sql_parse` (lines 608-783) for a dict input:
required-field checks, query and item policy checks, the shared SELECT
clause, then dispatch on `"from" in json_input or "joins" in
json_input`. -/
def sql_parse_core (cfg : Cfg) (j : List (String × Val)) (with_values : Bool) :
    PyM SQLResult := do
  if !hasKey j "query" then return SQLResult.fail "Missing required field: query"
  else if !hasKey j "items" then return SQLResult.fail "Missing required field: items"
  else do
    let query := dictGetD j "query" vNull
    if !is_entity_allowed query cfg.allowed_queries cfg.not_allowed_queries then
      return SQLResult.fail ("Query not allowed: " ++ pyStr query)
    else
      match dictGetD j "items" vNull with
      | vList itemsL =>
          (match check_items_loop cfg itemsL with
           | some nm => return SQLResult.fail ("Item not allowed: " ++ nm)
           | none => do
               let itemStrs ← strList itemsL
               let select_clause := pyStr query ++ " " ++ pyJoin "," itemStrs
               if hasKey j "from" || hasKey j "joins" then
                 sql_parse_extended cfg j with_values select_clause
               else
                 sql_parse_legacy cfg j with_values select_clause)
      | _ => return SQLResult.fail "Items must be a list"

/-- `JsonSQL.sql_parse` (lines 562-786): the body above, with the blanket
`except Exception` turning any raised exception into `(False, "Error
parsing SQL: " + str(e), ())`.  The declared parameter type is `dict`;
non-dict input is modelled only as some caught exception. -/
def sql_parse (cfg : Cfg) (json_input : Val) (with_values : Bool) : SQLResult :=
  match json_input with
  | vDict j =>
      match sql_parse_core cfg j with_values with
      | .ok r => r
      | .error e => SQLResult.fail ("Error parsing SQL: " ++ e)
  | _ => SQLResult.fail ("Error parsing SQL: TypeError")

/-- The number of `?` placeholder characters in a string. -/
def countQ (s : String) : Nat := s.data.count '?'

def noQStr (s : String) : Bool := s.data.all (fun c => c != '?')

mutual

/-- No string anywhere inside the value contains the `?` character. -/
def noQVal : Val → Bool
  | vStr s => noQStr s
  | vList l => noQList l
  | vDict d => noQDict d
  | _ => true

def noQList : List Val → Bool
  | [] => true
  | v :: vs => noQVal v && noQList vs

def noQDict : List (String × Val) → Bool
  | [] => true
  | (k, v) :: rest => noQStr k && noQVal v && noQDict rest

end

def sumCountQ (l : List String) : Nat := (l.map countQ).sum

/-- A configuration with two integer-typed columns and permissive
everything else, matching the harness used by the repository tests. -/
def cfgTyped : Cfg where
  allowed_queries := ["SELECT"]
  allowed_items := ["*"]
  allowed_tables := ["users"]
  allowed_connections := ["WHERE"]
  allowed_columns := [("col1", tInt), ("col2", tInt)]
  allowed_joins := ["INNER JOIN", "LEFT JOIN", "RIGHT JOIN", "FULL OUTER JOIN",
                    "CROSS JOIN", "NATURAL JOIN"]
  not_allowed_queries := []
  not_allowed_items := []
  not_allowed_tables := []
  not_allowed_connections := []
  not_allowed_columns := []
  not_allowed_joins := []

/-- A configuration with wildcard columns (`{"*": object}`). -/
def cfgWild : Cfg where
  allowed_queries := ["SELECT"]
  allowed_items := ["*"]
  allowed_tables := ["users"]
  allowed_connections := ["WHERE"]
  allowed_columns := [("*", tObject)]
  allowed_joins := ["INNER JOIN", "LEFT JOIN", "RIGHT JOIN", "FULL OUTER JOIN",
                    "CROSS JOIN", "NATURAL JOIN"]
  not_allowed_queries := []
  not_allowed_items := []
  not_allowed_tables := []
  not_allowed_connections := []
  not_allowed_columns := []
  not_allowed_joins := []

/-- The wildcard configuration with one deny-listed column. -/
def cfgDeny : Cfg := { cfgWild with not_allowed_columns := ["secret"] }

theorem countQ_append (a b : String) : countQ (a ++ b) = countQ a + countQ b := by
  simp [countQ, String.data_append, List.count_append]

theorem noQStr_countQ {s : String} (h : noQStr s = true) : countQ s = 0 := by
  simp only [noQStr, List.all_eq_true] at h
  simp only [countQ, List.count_eq_zero]
  intro hmem
  have := h _ hmem
  simp at this

theorem countQ_empty : countQ "" = 0 := rfl

/-- C2: the entity-policy check `_is_entity_allowed` implements deny-first,
strict-empty-allow, wildcard, explicit-whitelist semantics, in that order:
a denied entity is always refused (even under a wildcard or explicit allow);
an empty allow list refuses everything; a wildcard allow admits any
non-denied entity; otherwise the decision is exactly allow-list
membership. -/
theorem c2_entity_policy (e : String) (allow deny : List String) :
    (e ∈ deny → is_entity_allowed (vStr e) allow deny = false) ∧
    (allow = [] → is_entity_allowed (vStr e) allow deny = false) ∧
    (e ∉ deny → "*" ∈ allow → is_entity_allowed (vStr e) allow deny = true) ∧
    (e ∉ deny → allow ≠ [] → "*" ∉ allow →
      (is_entity_allowed (vStr e) allow deny = true ↔ e ∈ allow)) := by
  refine ⟨fun h => ?_, fun h => ?_, fun h1 h2 => ?_, fun h1 h2 h3 => ?_⟩
  · simp [is_entity_allowed, strMemV, List.elem_iff, h]
  · subst h
    unfold is_entity_allowed
    split
    · rfl
    · simp
  · simp [is_entity_allowed, strMemV, List.elem_iff, h1, h2, List.isEmpty_iff,
      List.ne_nil_of_mem h2]
  · simp [is_entity_allowed, strMemV, List.elem_iff, h1, h2, h3, List.isEmpty_iff]

/-- C2 witness: a denied entity is refused despite a wildcard allow, and a
non-denied entity is admitted by the wildcard. -/
theorem c2_entity_policy_witness :
    is_entity_allowed (vStr "DROP") ["*"] ["DROP"] = false ∧
    is_entity_allowed (vStr "users") ["*"] ["DROP"] = true :=
  ⟨(c2_entity_policy "DROP" ["*"] ["DROP"]).1 (by decide),
   (c2_entity_policy "users" ["*"] ["DROP"]).2.2.1 (by decide) (by decide)⟩

/-- C10: `logic_parse` can fall off the end of the function and return
`None` (outside its declared result type): with columns `col1`, `col2`
declared, the input whose single top-level key is the bare comparator
token `=` mapped to `{"foo": 1}` passes the category check (the key is a
comparison operator), fails `is_valid_comparison` (the inner key `foo` is
not a comparator), is not a declared column and not a boolean connective,
so no branch returns. -/
theorem c10_falls_off_the_end :
    logic_parse cfgTyped (vDict [("=", vDict [("foo", vInt 1)])]) = LPResult.nores := rfl

/-- C3 (code bug): `logic_parse` (the Logic Compiler) does render `!=` as
`<>` via `get_sql_comparator`, but `sql_parse` routes every `where`,
`having` and legacy `logic` tree through `_parse_logic_condition`, which
emits the comparator verbatim: a successful `!=` comparison through
`sql_parse` leaves `!=` in the output text, contradicting the claim (and
the evident intent of `get_sql_comparator`, which `_parse_logic_condition`
never calls). -/
theorem c3_neq_rendering :
    logic_parse cfgTyped (vDict [("col1", vDict [("!=", vInt 10)])]) =
      LPResult.ok "col1 <> ?" [vInt 10] ∧
    sql_parse cfgWild (vDict [("query", vStr "SELECT"), ("items", vList [vStr "*"]),
        ("table", vStr "users"), ("connection", vStr "WHERE"),
        ("logic", vDict [("a", vDict [("!=", vInt 1)])])]) false =
      SQLResult.ok "SELECT * FROM users WHERE a != ?" [vInt 1] :=
  ⟨rfl, rfl⟩

/-- C8 (code bug): in `with_values` mode a boolean parameter is rendered
as Python `str` output `True`/`False`, not as `TRUE`/`FALSE`: the
`isinstance(param, (int, float))` branch is checked first and `bool`
subclasses `int`, so the dedicated boolean branch is dead code.  Moreover
`str.replace("?", ..., 1)` rescans from the start of the text, so a `?`
inside an earlier substituted string literal is consumed by the next
parameter, corrupting the literal and leaving a trailing `?` in the
output. -/
theorem c8_with_values_bool_and_corruption :
    sql_parse cfgWild (vDict [("query", vStr "SELECT"), ("items", vList [vStr "*"]),
        ("table", vStr "users"), ("connection", vStr "WHERE"),
        ("logic", vDict [("a", vDict [("=", vBool true)])])]) true =
      SQLResult.ok "SELECT * FROM users WHERE a = True" [] ∧
    sql_parse cfgWild (vDict [("query", vStr "SELECT"), ("items", vList [vStr "*"]),
        ("table", vStr "users"), ("connection", vStr "WHERE"),
        ("logic", vDict [("x", vDict [("=", vStr "a?b")]),
                         ("y", vDict [("=", vInt 5)])])]) true =
      SQLResult.ok ("SELECT * FROM users WHERE x = " ++ squote ++ "a5b" ++ squote ++
        " AND y = ?") [] :=
  ⟨rfl, rfl⟩

/-- C9: in the extended shape, `where` condition trees are compiled by
`_parse_logic_condition`, which performs no column-policy check at all:
for any configuration admitting the query verb, item and table, any column
name `c` whatsoever (deny-listed, absent from `allowed_columns`, anything)
and any scalar comparator compile successfully to `c <op> ?`, and no
policy-violation failure is ever produced for a where-column on this
path. -/
theorem c9_extended_where_bypasses_column_policy (cfg : Cfg) (t c op : String)
    (v : Val) (hop : COMPARISON.contains op = true)
    (hq : is_entity_allowed (vStr "SELECT") cfg.allowed_queries cfg.not_allowed_queries = true)
    (hi : is_entity_allowed (vStr "*") cfg.allowed_items cfg.not_allowed_items = true)
    (ht : is_entity_allowed (vStr t) cfg.allowed_tables cfg.not_allowed_tables = true) :
    sql_parse cfg (vDict [("query", vStr "SELECT"), ("items", vList [vStr "*"]),
        ("from", vStr t), ("where", vDict [(c, vDict [(op, v)])])]) false =
      SQLResult.ok ("SELECT * FROM " ++ t ++ " WHERE " ++ c ++ " " ++ op ++ " ?") [v] := by
  have hop2 : op ∈ COMPARISON := by rw [← List.elem_iff]; exact hop
  have hne : ((c ++ " " ++ op ++ " ?") == "") = false := by
    rw [beq_eq_false_iff_ne]
    intro he
    have := congrArg String.data he
    simp [String.data_append] at this
  simp [sql_parse, sql_parse_core, sql_parse_extended, from_component, join_component,
    where_component, group_component, having_component, order_component,
    limit_component, hasKey, dictGetD, dictGet, check_items_loop, strList,
    parse_logic_condition, plc_entries, plc_cond_items, plc_one,
    parse_table_with_alias, build_table_clause, pyTruthy, pyStr, pyJoin,
    hq, hi, ht, hop2, hne, String.ext_iff, String.data_append]
  simp [pure, Except.pure, String.ext_iff, String.data_append]

/-- C9 witness: under `cfgDeny`, whose deny list contains `secret`, a
`where` tree on the deny-listed column `secret` still compiles to
`secret = ?`. -/
theorem c9_extended_where_bypasses_column_policy_witness :
    sql_parse cfgDeny (vDict [("query", vStr "SELECT"), ("items", vList [vStr "*"]),
        ("from", vStr "users"), ("where", vDict [("secret", vDict [("=", vInt 1)])])]) false =
      SQLResult.ok "SELECT * FROM users WHERE secret = ?" [vInt 1] := by
  have h := c9_extended_where_bypasses_column_policy cfgDeny "users" "secret" "="
    (vInt 1) rfl rfl rfl rfl
  simpa using h

/-- C7: for a join spec with a non-empty ON condition, the compile fails
(with the injection-rejection diagnostic wrapped by the catch-all) exactly
when the condition matches the suspicious-pattern screen — a semicolon
followed by optional whitespace and DROP/DELETE/INSERT/UPDATE, `--`,
`/*`, `xp_` or `sp_`, all matched case-insensitively; a condition matching
none of the patterns passes the screen and the join compiles. -/
theorem c7_join_injection_screen (cfg : Cfg) (t onc : String) (hon : onc ≠ "")
    (hq : is_entity_allowed (vStr "SELECT") cfg.allowed_queries cfg.not_allowed_queries = true)
    (hi : is_entity_allowed (vStr "*") cfg.allowed_items cfg.not_allowed_items = true)
    (ht : is_entity_allowed (vStr t) cfg.allowed_tables cfg.not_allowed_tables = true)
    (hj : is_entity_allowed (vStr "INNER JOIN") cfg.allowed_joins cfg.not_allowed_joins = true) :
    (suspicious_join_condition onc = true →
      sql_parse cfg (vDict [("query", vStr "SELECT"), ("items", vList [vStr "*"]),
          ("from", vStr t), ("joins", vList [vDict [("table", vStr t), ("on", vStr onc)]])])
        false =
        SQLResult.fail ("Error parsing SQL: Invalid JOIN condition: " ++ onc)) ∧
    (suspicious_join_condition onc = false →
      sql_parse cfg (vDict [("query", vStr "SELECT"), ("items", vList [vStr "*"]),
          ("from", vStr t), ("joins", vList [vDict [("table", vStr t), ("on", vStr onc)]])])
        false =
        SQLResult.ok ("SELECT * FROM " ++ t ++ " INNER JOIN " ++ t ++ " ON " ++ onc) []) := by
  have hone : onc.isEmpty = false := by
    cases he : onc.isEmpty
    · rfl
    · exact absurd (by simpa [String.isEmpty_iff] using he) hon
  constructor <;> intro hs <;>
    simp [sql_parse, sql_parse_core, sql_parse_extended, from_component, join_component,
      where_component, group_component, having_component, order_component,
      limit_component, hasKey, dictGetD, dictGet, check_items_loop, strList,
      parse_joins, parse_joins_loop, parse_one_join, pyToList, pyUpper,
      validate_join_condition, parse_table_with_alias, build_table_clause,
      pyTruthy, pyStr, pyJoin, throw, throwThe, MonadExceptOf.throw,
      hq, hi, ht, hj, hs, hone, String.ext_iff, String.data_append]
  simp [pure, Except.pure, String.ext_iff, String.data_append]

/-- C7 witness: a condition containing `; DROP` is rejected through
`sql_parse`; the same join with a benign condition compiles. -/
theorem c7_join_injection_screen_witness :
    sql_parse cfgWild (vDict [("query", vStr "SELECT"), ("items", vList [vStr "*"]),
        ("from", vStr "users"),
        ("joins", vList [vDict [("table", vStr "users"),
          ("on", vStr "a = b; DROP TABLE users")]])]) false =
      SQLResult.fail "Error parsing SQL: Invalid JOIN condition: a = b; DROP TABLE users" ∧
    sql_parse cfgWild (vDict [("query", vStr "SELECT"), ("items", vList [vStr "*"]),
        ("from", vStr "users"),
        ("joins", vList [vDict [("table", vStr "users"), ("on", vStr "a = b")]])]) false =
      SQLResult.ok "SELECT * FROM users INNER JOIN users ON a = b" [] := by
  constructor
  · have h := (c7_join_injection_screen cfgWild "users" "a = b; DROP TABLE users"
      (by decide) rfl rfl rfl rfl).1 (by decide)
    simpa using h
  · have h := (c7_join_injection_screen cfgWild "users" "a = b"
      (by decide) rfl rfl rfl rfl).2 (by decide)
    simpa using h

theorem hasKeyT_of_lookupT {d : List (String × PyType)} {k : String} {t : PyType}
    (h : lookupT d k = some t) : hasKeyT d k = true := by
  induction d with
  | nil => simp [lookupT] at h
  | cons p rest ih =>
      by_cases hp : p.1 == k
      · simp [hasKeyT, hp]
      · simp only [lookupT, List.find?] at h
        rw [Bool.of_not_eq_true hp] at h
        simp only [hasKeyT, List.any_cons, hp, Bool.false_or]
        exact ih h

theorem isEmpty_false_of_lookupT {d : List (String × PyType)} {k : String} {t : PyType}
    (h : lookupT d k = some t) : d.isEmpty = false := by
  cases d
  · simp [lookupT] at h
  · rfl

theorem all_values_allowed_int (cfg : Cfg) (l : List Val)
    (hl : ∀ v ∈ l, ∃ n : Int, v = vInt n) :
    all_values_allowed cfg l tInt = Except.ok true := by
  induction l with
  | nil => rfl
  | cons a as ih =>
      obtain ⟨n, ha⟩ := hl a (List.mem_cons_self a as)
      subst ha
      have ht := ih (fun v hv => hl v (List.mem_cons_of_mem _ hv))
      simp [all_values_allowed, is_valid_value, is_another_column, isVList,
        pyIsinstance, ht, bind, Except.bind, pure, Except.pure]

/-- C4 counterexample: under the wildcard column kind (`{"*": object}`),
the operand `[5, 10, 15]` satisfies `isinstance(value, object)` and the
comparison is accepted, so `logic_parse` returns a success with the text
`col BETWEEN ? AND ?` and THREE parameters — refuting "any BETWEEN operand
that is not exactly 2 such elements yields a failure, never a success". -/
theorem c4_between_counterexample :
    logic_parse cfgWild (vDict [("col", vDict [("BETWEEN", vList [vInt 5, vInt 10, vInt 15])])]) =
      LPResult.ok "col BETWEEN ? AND ?" [vInt 5, vInt 10, vInt 15] := rfl

/-- C4 amended: when the column has a declared scalar kind (here `int`,
with no wildcard column entry), a BETWEEN operand consisting of values of
that kind is accepted exactly when it has 2 elements, emitting
`<column> BETWEEN ? AND ?` with both values as parameters in the given
order, and rejected with the kind-mismatch diagnostic otherwise; but under
the wildcard `object` kind a list of any length is accepted and all its
elements become parameters (see the counterexample). -/
theorem c4_between_amended (cfg : Cfg) (c : String) (l : List Val)
    (hc : lookupT cfg.allowed_columns c = some tInt)
    (hw : hasKeyT cfg.allowed_columns "*" = false)
    (hd : cfg.not_allowed_columns.contains c = false)
    (hcl : LOGICAL.contains c = false)
    (hl : ∀ v ∈ l, ∃ n : Int, v = vInt n) :
    logic_parse cfg (vDict [(c, vDict [("BETWEEN", vList l)])]) =
      if l.length = 2 then LPResult.ok (c ++ " BETWEEN ? AND ?") l
      else LPResult.err ("Bad " ++ c ++ ", non " ++ pyTypeStr tInt) := by
  have hkey := hasKeyT_of_lookupT hc
  have hemp := isEmpty_false_of_lookupT hc
  have hd2 : c ∉ cfg.not_allowed_columns := by simpa using hd
  have hcol : is_column_allowed cfg (vStr c) = true := by
    simp [is_column_allowed, strMemV, hd2, hemp, hw, hkey]
  have hcat : is_value_in_allowed_categories cfg c = true := by
    simp [is_value_in_allowed_categories, hcol]
  have hava := all_values_allowed_int cfg l hl
  have hcl2 : c ∉ LOGICAL := by simpa using hcl
  by_cases hlen : l.length = 2
  · obtain ⟨a, b, rfl⟩ := List.length_eq_two.mp hlen
    obtain ⟨na, rfl⟩ := hl a (by simp)
    obtain ⟨nb, rfl⟩ := hl b (by simp)
    simp [logic_parse, hcat, hcl2, hkey, is_valid_comparison, listFirst, pyIndex,
      dictGet, colType, hc, is_valid_value, isVList, isVDict, pyIsinstance,
      is_special_comparison, hava, pyEqS, strMemV, logic_parse_success,
      logic_parse_agg_special, get_sql_comparator, is_another_column, pyToList,
      pyStr, COMPARISON, SPECIAL_COMPARISON, AGGREGATES,
      bind, Except.bind, pure, Except.pure]
  · have h2 : (l.length == 2) = false := by simp [hlen]
    simp [logic_parse, hcat, hcl2, hkey, is_valid_comparison, listFirst, pyIndex,
      dictGet, colType, hc, is_valid_value, isVList, pyIsinstance,
      is_special_comparison, hava, pyEqS, strMemV, h2, hlen,
      logic_parse_col_error, COMPARISON, SPECIAL_COMPARISON,
      bind, Except.bind, pure, Except.pure]

/-- C4 witness: with `col1` declared as an `int` column, a well-formed
2-element BETWEEN compiles to the expected fragment and parameters. -/
theorem c4_between_amended_witness :
    logic_parse cfgTyped (vDict [("col1", vDict [("BETWEEN", vList [vInt 5, vInt 10])])]) =
      LPResult.ok "col1 BETWEEN ? AND ?" [vInt 5, vInt 10] := by
  have h := c4_between_amended cfgTyped "col1" [vInt 5, vInt 10] rfl rfl rfl rfl
    (by intro v hv; simp at hv; rcases hv with h | h <;> exact ⟨_, h⟩)
  simpa using h

theorem logic_parse_ok_dict {cfg : Cfg} {v : Val} {s : String} {p : List Val}
    (h : logic_parse cfg v = LPResult.ok s p) : ∃ d, v = vDict d := by
  cases v with
  | vNull => simp [logic_parse] at h
  | vBool b => simp [logic_parse] at h
  | vInt n => simp [logic_parse] at h
  | vStr t =>
      rw [logic_parse] at h
      split at h <;> simp at h
  | vList l =>
      rw [logic_parse] at h
      split at h <;> simp at h
  | vDict d => exact ⟨d, rfl⟩

theorem settled_not_operator {cfg : Cfg} {v : Val}
    (h : (∃ m, logic_parse cfg v = LPResult.err m) ∨
         (∃ s p, logic_parse cfg v = LPResult.ok s p)) :
    strMemV v COMPARISON = false ∧ strMemV v SPECIAL_COMPARISON = false := by
  cases v with
  | vNull => exact ⟨rfl, rfl⟩
  | vBool b => exact ⟨rfl, rfl⟩
  | vInt n => exact ⟨rfl, rfl⟩
  | vList l => exact ⟨rfl, rfl⟩
  | vDict d => exact ⟨rfl, rfl⟩
  | vStr t =>
      have ht : t = "" := by
        rcases h with ⟨m, hm⟩ | ⟨s, p, hp⟩
        · rw [logic_parse] at hm
          split at hm
          · next he => exact (String.isEmpty_iff t).mp (by simpa using he)
          · simp at hm
        · rw [logic_parse] at hp
          split at hp <;> simp at hp
      subst ht
      exact ⟨rfl, rfl⟩

theorem ivc_group_false (cfg : Cfg) (conn : String) {v0 : Val} (rest : List Val)
    (h1 : strMemV v0 COMPARISON = false) (h2 : strMemV v0 SPECIAL_COMPARISON = false) :
    is_valid_comparison cfg conn (vList (v0 :: rest)) = Except.ok false := by
  simp [is_valid_comparison, listFirst, h1, h2, bind, Except.bind, pure, Except.pure]

theorem logic_parse_loop_all_ok {cfg : Cfg} :
    ∀ {children : List Val} {frs : List (String × List Val)},
      List.Forall₂ (fun c fr => logic_parse cfg c = LPResult.ok fr.1 fr.2) children frs →
      logic_parse_loop cfg children = Sum.inr frs := by
  intro children frs h
  induction h with
  | nil => rfl
  | cons hrel _hrest ih => simp [logic_parse_loop, hrel, ih]

theorem logic_parse_loop_first_err {cfg : Cfg} {c : Val} {m : String} (post : List Val)
    (hc : logic_parse cfg c = LPResult.err m) :
    ∀ {pre : List Val} {frs : List (String × List Val)},
      List.Forall₂ (fun x fr => logic_parse cfg x = LPResult.ok fr.1 fr.2) pre frs →
      logic_parse_loop cfg (pre ++ c :: post) = Sum.inl (LPResult.err m) := by
  intro pre frs h
  induction h with
  | nil => simp [logic_parse_loop, hc]
  | cons hrel _hrest ih => simp [logic_parse_loop, hrel, ih]

/-- C5 counterexample: a boolean group with an EMPTY child list does not
yield the length diagnostic — `is_valid_comparison` evaluates
`list(json_input["AND"])[0]` on the empty payload and the uncaught
`IndexError` escapes `logic_parse`, refuting "a list payload with fewer
than 2 children yields the fixed diagnostic failure". -/
theorem c5_boolean_group_counterexample :
    logic_parse cfgTyped (vDict [("AND", vList [])]) = LPResult.raised "IndexError" := rfl

/-- C5 amended: a boolean group whose connective is not also a declared
column yields the fixed diagnostic `Invalid boolean length, must be >= 2`
for a payload of exactly ONE child (an empty payload instead raises an
uncaught `IndexError`, see the counterexample); and when every child
compiles successfully the result is the child fragments joined by
`<connective>` surrounded by single spaces, wrapped in one pair of
parentheses, with the child parameter tuples concatenated positionally in
child order. -/
theorem c5_boolean_group_amended (cfg : Cfg) (conn : String)
    (hconn : conn = "AND" ∨ conn = "OR")
    (hkey : hasKeyT cfg.allowed_columns conn = false) :
    (∀ child : Val, strMemV child COMPARISON = false →
       strMemV child SPECIAL_COMPARISON = false →
       logic_parse cfg (vDict [(conn, vList [child])]) =
         LPResult.err "Invalid boolean length, must be >= 2") ∧
    (∀ (children : List Val) (frs : List (String × List Val)),
       2 ≤ children.length →
       List.Forall₂ (fun c fr => logic_parse cfg c = LPResult.ok fr.1 fr.2) children frs →
       logic_parse cfg (vDict [(conn, vList children)]) =
         LPResult.ok ("(" ++ pyJoin (" " ++ conn ++ " ") (frs.map Prod.fst) ++ ")")
           ((frs.map Prod.snd).flatten)) := by
  have hup : pyUpper conn = conn := by rcases hconn with h | h <;> subst h <;> rfl
  have hmem : conn ∈ LOGICAL := by rcases hconn with h | h <;> subst h <;> decide
  constructor
  · intro child h1 h2
    have hivc := ivc_group_false cfg conn ([] : List Val) h1 h2
    simp [logic_parse, is_value_in_allowed_categories, List.elem_iff.mpr hmem,
      hkey, hivc, isVList, hmem]
  · intro children frs hlen hfa
    obtain ⟨c0, rest, rfl⟩ : ∃ c0 rest, children = c0 :: rest := by
      cases children with
      | nil => simp at hlen
      | cons a as => exact ⟨a, as, rfl⟩
    have hrel0 : logic_parse cfg c0 = LPResult.ok (frs.head?.getD ("", [])).1
        (frs.head?.getD ("", [])).2 := by
      cases hfa with
      | cons h _ => simpa using h
    obtain ⟨h1, h2⟩ := settled_not_operator (Or.inr ⟨_, _, hrel0⟩)
    have hivc := ivc_group_false cfg conn rest h1 h2
    have hloop := logic_parse_loop_all_ok hfa
    have hlt : ¬ ((c0 :: rest).length < 2) := by omega
    simp [logic_parse, is_value_in_allowed_categories, List.elem_iff.mpr hmem,
      hkey, hivc, isVList, hmem, hlt, hloop, hup]
    simp only [List.length_cons] at hlen
    omega

/-- C5 witness: one child yields the diagnostic; two successful children
yield the parenthesized conjunction with concatenated parameters. -/
theorem c5_boolean_group_amended_witness :
    logic_parse cfgTyped (vDict [("AND", vList [vDict [("col1", vDict [("=", vInt 1)])]])]) =
      LPResult.err "Invalid boolean length, must be >= 2" ∧
    logic_parse cfgTyped (vDict [("AND", vList [vDict [("col1", vDict [("=", vInt 1)])],
        vDict [("col2", vDict [(">", vInt 2)])]])]) =
      LPResult.ok "(col1 = ? AND col2 > ?)" [vInt 1, vInt 2] := by
  have h := c5_boolean_group_amended cfgTyped "AND" (Or.inl rfl) rfl
  constructor
  · exact h.1 (vDict [("col1", vDict [("=", vInt 1)])]) rfl rfl
  · have h2 := h.2 [vDict [("col1", vDict [("=", vInt 1)])],
      vDict [("col2", vDict [(">", vInt 2)])]]
      [("col1 = ?", [vInt 1]), ("col2 > ?", [vInt 2])]
      (by decide)
      (List.Forall₂.cons rfl (List.Forall₂.cons rfl List.Forall₂.nil))
    simpa using h2

/-- C6 counterexample: a boolean group whose first failing child fails by
RAISING (the nested empty group raises `IndexError`) propagates the
exception out of `logic_parse` instead of returning a failure value,
refuting "the failure is returned as a value, never thrown across the
public boundary". -/
theorem c6_fail_fast_counterexample :
    logic_parse cfgTyped (vDict [("AND", vList [vDict [("AND", vList [])],
        vDict [("col1", vDict [("=", vInt 1)])]])]) = LPResult.raised "IndexError" := rfl

/-- C6 amended: when the first failing child of a boolean group fails with
a failure VALUE `(False, message)`, the group returns exactly that failure
and never evaluates the remaining siblings (the result does not depend on
the arbitrary `post` children, which may even be ones whose compilation
would raise); but a child whose compilation raises an exception propagates
the exception instead of a failure value (see the counterexample). -/
theorem c6_fail_fast_amended (cfg : Cfg) (conn : String)
    (hconn : conn = "AND" ∨ conn = "OR")
    (hkey : hasKeyT cfg.allowed_columns conn = false)
    (pre post : List Val) (frs : List (String × List Val)) (c : Val) (m : String)
    (hfa : List.Forall₂ (fun x fr => logic_parse cfg x = LPResult.ok fr.1 fr.2) pre frs)
    (hc : logic_parse cfg c = LPResult.err m)
    (hlen : 2 ≤ (pre ++ c :: post).length) :
    logic_parse cfg (vDict [(conn, vList (pre ++ c :: post))]) = LPResult.err m := by
  have hmem : conn ∈ LOGICAL := by rcases hconn with h | h <;> subst h <;> decide
  have hloop := logic_parse_loop_first_err post hc hfa
  obtain ⟨v0, tail, hsplit, hset⟩ :
      ∃ v0 tail, pre ++ c :: post = v0 :: tail ∧
        (strMemV v0 COMPARISON = false ∧ strMemV v0 SPECIAL_COMPARISON = false) := by
    cases hfa with
    | nil => exact ⟨c, post, rfl, settled_not_operator (Or.inl ⟨m, hc⟩)⟩
    | cons h _ =>
        refine ⟨_, _, rfl, settled_not_operator (Or.inr ⟨_, _, h⟩)⟩
  have hivc : is_valid_comparison cfg conn (vList (pre ++ c :: post)) = Except.ok false := by
    rw [hsplit]
    exact ivc_group_false cfg conn tail hset.1 hset.2
  have hlt : ¬ ((pre ++ c :: post).length < 2) := by omega
  simp [logic_parse, is_value_in_allowed_categories, List.elem_iff.mpr hmem,
    hkey, hivc, isVList, hmem, hlt, hloop]
  intro hcon
  exfalso
  simp [List.length_append] at hlen
  omega

/-- C6 witness: a group of a successful child, then a child failing with
`Invalid Input - nope`, then a trailing child that would RAISE if it were
attempted (`None` has no `len`), returns the middle failure unchanged —
the trailing sibling is never compiled. -/
theorem c6_fail_fast_amended_witness :
    logic_parse cfgTyped (vDict [("AND", vList [vDict [("col1", vDict [("=", vInt 1)])],
        vDict [("nope", vDict [("=", vInt 2)])], vNull])]) =
      LPResult.err "Invalid Input - nope" := by
  have h := c6_fail_fast_amended cfgTyped "AND" (Or.inl rfl) rfl
    [vDict [("col1", vDict [("=", vInt 1)])]] [vNull]
    [("col1 = ?", [vInt 1])] (vDict [("nope", vDict [("=", vInt 2)])])
    "Invalid Input - nope"
    (List.Forall₂.cons rfl List.Forall₂.nil) rfl (by decide)
  simpa using h

theorem charOfNat_toNat {n : Nat} (h : n.isValidChar) : (Char.ofNat n).toNat = n := by
  unfold Char.ofNat
  rw [dif_pos h]
  rfl

theorem toUpper_eq_qmark {c : Char} : c.toUpper = '?' ↔ c = '?' := by
  constructor
  · intro h
    unfold Char.toUpper at h
    by_cases hc : c.toNat ≥ 97 ∧ c.toNat ≤ 122
    · exfalso
      rw [if_pos hc] at h
      have hv : (c.toNat - 32).isValidChar := by
        unfold Nat.isValidChar
        omega
      have h2 := congrArg Char.toNat h
      rw [charOfNat_toNat hv, show ('?').toNat = 63 from rfl] at h2
      omega
    · rwa [if_neg hc] at h
  · intro h
    subst h
    rfl

theorem countQ_pyUpper (s : String) : countQ (pyUpper s) = countQ s := by
  simp only [countQ, pyUpper, List.count, List.countP_map]
  congr 1
  funext c
  simp only [Function.comp]
  by_cases hc : c = '?'
  · subst hc
    rfl
  · have h1 : (c.toUpper == '?') = false := by
      simp only [beq_eq_false_iff_ne, ne_eq, toUpper_eq_qmark]
      exact hc
    have h2 : (c == '?') = false := by
      simp only [beq_eq_false_iff_ne, ne_eq]
      exact hc
    rw [h1, h2]

theorem digitChar_ne_qmark (d : Nat) : digitChar d ≠ '?' := by
  unfold digitChar
  split <;> decide

theorem countQ_mk_append (a b : List Char) :
    countQ ⟨a ++ b⟩ = countQ ⟨a⟩ + countQ ⟨b⟩ := by
  simp [countQ, List.count_append]

theorem natStrAux_countQ (fuel n : Nat) : countQ ⟨natStrAux fuel n⟩ = 0 := by
  induction fuel generalizing n with
  | zero => rfl
  | succ f ih =>
      rw [natStrAux]
      split
      · simp [countQ, List.count_cons, digitChar_ne_qmark n]
      · rw [countQ_mk_append, ih]
        simp [countQ, List.count_cons, digitChar_ne_qmark (n % 10)]

theorem countQ_natStr (n : Nat) : countQ (natStr n) = 0 := natStrAux_countQ (n + 1) n

theorem countQ_intStr (n : Int) : countQ (intStr n) = 0 := by
  unfold intStr
  split
  · rw [countQ_append, countQ_natStr]
    rfl
  · exact countQ_natStr n.natAbs

theorem countQ_squote : countQ squote = 0 := rfl

mutual

theorem pyRepr_countQ : (v : Val) → noQVal v = true → countQ (pyRepr v) = 0
  | vNull, _ => rfl
  | vBool true, _ => rfl
  | vBool false, _ => rfl
  | vInt n, _ => countQ_intStr n
  | vStr s, h => by
      rw [pyRepr, countQ_append, countQ_append, countQ_squote,
        noQStr_countQ (by simpa [noQVal] using h)]
  | vList l, h => by
      rw [pyRepr, countQ_append, countQ_append,
        pyReprList_countQ l (by simpa [noQVal] using h)]
      rfl
  | vDict d, h => by
      rw [pyRepr, countQ_append, countQ_append,
        pyReprDict_countQ d (by simpa [noQVal] using h)]
      rfl

theorem pyReprList_countQ : (l : List Val) → noQList l = true → countQ (pyReprList l) = 0
  | [], _ => rfl
  | [v], h => by
      rw [pyReprList, pyRepr_countQ v (by simpa [noQList] using h)]
  | v :: w :: rest, h => by
      have hv : noQVal v = true := by
        simp only [noQList, Bool.and_eq_true] at h
        exact h.1
      have hrest : noQList (w :: rest) = true := by
        simp only [noQList, Bool.and_eq_true] at h ⊢
        exact h.2
      rw [pyReprList, countQ_append, countQ_append, pyRepr_countQ v hv,
        pyReprList_countQ (w :: rest) hrest]
      rfl

theorem pyReprDict_countQ : (d : List (String × Val)) → noQDict d = true →
    countQ (pyReprDict d) = 0
  | [], _ => rfl
  | [(k, v)], h => by
      simp only [noQDict, Bool.and_eq_true] at h
      obtain ⟨⟨hk, hv⟩, -⟩ := h
      simp only [pyReprDict]
      simp [countQ_append, noQStr_countQ hk, pyRepr_countQ v hv,
        (show countQ squote = 0 from rfl), (show countQ ": " = 0 from rfl)]
  | (k, v) :: (k2, v2) :: rest, h => by
      simp only [noQDict, Bool.and_eq_true] at h
      obtain ⟨⟨hk, hv⟩, ⟨hk2, hv2⟩, hrest⟩ := h
      have hrest0 : noQDict ((k2, v2) :: rest) = true := by
        simp only [noQDict, Bool.and_eq_true]
        exact ⟨⟨hk2, hv2⟩, hrest⟩
      simp only [pyReprDict]
      simp [countQ_append, noQStr_countQ hk, pyRepr_countQ v hv,
        pyReprDict_countQ ((k2, v2) :: rest) hrest0,
        (show countQ squote = 0 from rfl), (show countQ ": " = 0 from rfl),
        (show countQ ", " = 0 from rfl)]

end

theorem pyStr_countQ (v : Val) (h : noQVal v = true) : countQ (pyStr v) = 0 := by
  cases v with
  | vStr s => exact noQStr_countQ (by simpa [noQVal] using h)
  | vNull => rfl
  | vBool b => cases b <;> rfl
  | vInt n => exact countQ_intStr n
  | vList l => exact pyRepr_countQ (vList l) h
  | vDict d => exact pyRepr_countQ (vDict d) h

theorem noQList_mem {l : List Val} {v : Val} (h : noQList l = true) (hv : v ∈ l) :
    noQVal v = true := by
  induction l with
  | nil => simp at hv
  | cons a as ih =>
      simp only [noQList, Bool.and_eq_true] at h
      rcases List.mem_cons.mp hv with rfl | hm
      · exact h.1
      · exact ih h.2 hm

theorem noQDict_getD {d : List (String × Val)} {k : String} {dflt : Val}
    (h : noQDict d = true) (hd : noQVal dflt = true) :
    noQVal (dictGetD d k dflt) = true := by
  induction d with
  | nil => simpa [dictGetD, dictGet] using hd
  | cons p rest ih =>
      rcases p with ⟨k0, v0⟩
      simp only [noQDict, Bool.and_eq_true] at h
      by_cases hk : k0 == k
      · simpa [dictGetD, dictGet, List.find?, hk] using h.1.2
      · have := ih h.2
        simpa [dictGetD, dictGet, List.find?, hk] using this

theorem sumCountQ_append (a b : List String) :
    sumCountQ (a ++ b) = sumCountQ a + sumCountQ b := by
  simp [sumCountQ]

theorem pyJoin_countQ (sep : String) (hsep : countQ sep = 0) :
    ∀ l : List String, countQ (pyJoin sep l) = sumCountQ l
  | [] => rfl
  | [s] => by simp [pyJoin, sumCountQ]
  | s :: w :: rest => by
      rw [pyJoin, countQ_append, countQ_append, hsep,
        pyJoin_countQ sep hsep (w :: rest)]
      simp [sumCountQ]

theorem pyJoin_replicate_countQ : ∀ n : Nat,
    countQ (pyJoin "," (List.replicate n "?")) = n
  | 0 => rfl
  | 1 => rfl
  | n + 2 => by
      rw [List.replicate, List.replicate, pyJoin, countQ_append, countQ_append,
        ← List.replicate, pyJoin_replicate_countQ (n + 1)]
      simp [(show countQ "?" = 1 from rfl), (show countQ "," = 0 from rfl)]
      omega

theorem contains_false_of_not_mem {l : List String} {op : String} (h : op ∉ l) :
    l.contains op = false := by
  cases hcc : l.contains op
  · rfl
  · exact absurd (List.elem_iff.mp hcc) h

theorem mem_comparison_countQ {op : String} (h : op ∈ COMPARISON) : countQ op = 0 := by
  simp only [COMPARISON, List.mem_cons, List.not_mem_nil, or_false] at h
  rcases h with rfl | rfl | rfl | rfl | rfl | rfl | rfl <;> rfl

theorem countQ_space : countQ " " = 0 := rfl

theorem countQ_space_qmark : countQ " ?" = 1 := rfl

theorem countQ_in_open : countQ " IN (" = 0 := rfl

theorem countQ_close : countQ ")" = 0 := rfl

theorem countQ_between_frag : countQ " BETWEEN ? AND ?" = 2 := rfl

theorem countQ_word_in : countQ "IN" = 0 := rfl

theorem countQ_word_between : countQ "BETWEEN" = 0 := rfl

theorem plc_one_countQ (c op : String) (v : Val) (hc : countQ c = 0) :
    sumCountQ (plc_one c op v).1 = (plc_one c op v).2.length := by
  by_cases h1 : op ∈ COMPARISON
  · simp [plc_one, h1, sumCountQ, countQ_append, hc, countQ_space,
      countQ_space_qmark, countQ_in_open, countQ_close, countQ_between_frag,
      countQ_word_in, countQ_word_between, mem_comparison_countQ h1]
  · by_cases h2 : op ∈ SPECIAL_COMPARISON
    · simp only [SPECIAL_COMPARISON, List.mem_cons, List.not_mem_nil, or_false] at h2
      rcases h2 with rfl | rfl
      · have hbc : "BETWEEN" ∉ COMPARISON := by decide
        have hbs : "BETWEEN" ∈ SPECIAL_COMPARISON := by decide
        cases v with
        | vList l =>
            by_cases hl : l.length = 2
            · simp [plc_one, hbc, hbs, sumCountQ, countQ_append, hc, countQ_space, countQ_space_qmark, countQ_in_open, countQ_close, countQ_between_frag, countQ_word_in, countQ_word_between, hl]
            · simp [plc_one, hbc, hbs, sumCountQ, countQ_append, hc, countQ_space, countQ_space_qmark, countQ_in_open, countQ_close, countQ_between_frag, countQ_word_in, countQ_word_between, hl]
        | vNull => simp [plc_one, hbc, hbs, sumCountQ, countQ_append, hc, countQ_space, countQ_space_qmark, countQ_in_open, countQ_close, countQ_between_frag, countQ_word_in, countQ_word_between]
        | vBool b => simp [plc_one, hbc, hbs, sumCountQ, countQ_append, hc, countQ_space, countQ_space_qmark, countQ_in_open, countQ_close, countQ_between_frag, countQ_word_in, countQ_word_between]
        | vInt n => simp [plc_one, hbc, hbs, sumCountQ, countQ_append, hc, countQ_space, countQ_space_qmark, countQ_in_open, countQ_close, countQ_between_frag, countQ_word_in, countQ_word_between]
        | vStr s => simp [plc_one, hbc, hbs, sumCountQ, countQ_append, hc, countQ_space, countQ_space_qmark, countQ_in_open, countQ_close, countQ_between_frag, countQ_word_in, countQ_word_between]
        | vDict d => simp [plc_one, hbc, hbs, sumCountQ, countQ_append, hc, countQ_space, countQ_space_qmark, countQ_in_open, countQ_close, countQ_between_frag, countQ_word_in, countQ_word_between]
      · have hic : "IN" ∉ COMPARISON := by decide
        have his : "IN" ∈ SPECIAL_COMPARISON := by decide
        cases v with
        | vList l => simp [plc_one, hic, his, sumCountQ, countQ_append, hc, countQ_space, countQ_space_qmark, countQ_in_open, countQ_close, countQ_between_frag, countQ_word_in, countQ_word_between,
            pyJoin_replicate_countQ]
        | vNull => simp [plc_one, hic, his, sumCountQ, countQ_append, hc, countQ_space, countQ_space_qmark, countQ_in_open, countQ_close, countQ_between_frag, countQ_word_in, countQ_word_between]
        | vBool b => simp [plc_one, hic, his, sumCountQ, countQ_append, hc, countQ_space, countQ_space_qmark, countQ_in_open, countQ_close, countQ_between_frag, countQ_word_in, countQ_word_between]
        | vInt n => simp [plc_one, hic, his, sumCountQ, countQ_append, hc, countQ_space, countQ_space_qmark, countQ_in_open, countQ_close, countQ_between_frag, countQ_word_in, countQ_word_between]
        | vStr s => simp [plc_one, hic, his, sumCountQ, countQ_append, hc, countQ_space, countQ_space_qmark, countQ_in_open, countQ_close, countQ_between_frag, countQ_word_in, countQ_word_between]
        | vDict d => simp [plc_one, hic, his, sumCountQ, countQ_append, hc, countQ_space, countQ_space_qmark, countQ_in_open, countQ_close, countQ_between_frag, countQ_word_in, countQ_word_between]
    · simp [plc_one, h1, h2, sumCountQ]

theorem plc_cond_items_countQ (c : String) (hc : countQ c = 0) :
    ∀ items : List (String × Val),
      sumCountQ (plc_cond_items c items).1 = (plc_cond_items c items).2.length
  | [] => rfl
  | (op, v) :: rest => by
      simp only [plc_cond_items]
      rw [sumCountQ_append, List.length_append, plc_one_countQ c op v hc,
        plc_cond_items_countQ c hc rest]

theorem plc_entries_countQ : ∀ entries : List (String × Val),
    noQDict entries = true →
    sumCountQ (plc_entries entries).1 = (plc_entries entries).2.length
  | [], _ => rfl
  | (c, cond) :: rest, h => by
      simp only [noQDict, Bool.and_eq_true] at h
      obtain ⟨⟨hk, _⟩, hrest⟩ := h
      have hrec := plc_entries_countQ rest hrest
      simp only [plc_entries]
      rw [sumCountQ_append, List.length_append, hrec]
      congr 1
      cases cond with
      | vDict items => exact plc_cond_items_countQ c (noQStr_countQ hk) items
      | vNull => rfl
      | vBool b => rfl
      | vInt n => rfl
      | vStr s => rfl
      | vList l => rfl

theorem parse_logic_condition_countQ {v : Val} {s : String} {ps : List Val}
    (hp : parse_logic_condition v = Except.ok (s, ps)) (h : noQVal v = true) :
    countQ s = ps.length := by
  unfold parse_logic_condition at hp
  by_cases ht : pyTruthy v = true
  · rw [if_neg (by simp [ht])] at hp
    cases v with
    | vDict entries =>
        simp only [pure, Except.pure, Except.ok.injEq, Prod.mk.injEq] at hp
        obtain ⟨hs, hps⟩ := hp
        subst hs
        subst hps
        rw [pyJoin_countQ " AND " rfl]
        exact plc_entries_countQ entries (by simpa [noQVal] using h)
    | vNull => simp [pyTruthy] at ht
    | vBool b => simp [throw, throwThe, MonadExceptOf.throw] at hp
    | vInt n => simp [throw, throwThe, MonadExceptOf.throw] at hp
    | vStr t => simp [throw, throwThe, MonadExceptOf.throw] at hp
    | vList l => simp [throw, throwThe, MonadExceptOf.throw] at hp
  · rw [if_pos (by simpa using ht)] at hp
    simp only [pure, Except.pure, Except.ok.injEq, Prod.mk.injEq] at hp
    obtain ⟨hs, hps⟩ := hp
    subst hs
    subst hps
    rfl

theorem noQList_map_singleton (cs : List Char) (h : cs.all (fun c => c != '?') = true) :
    noQList (cs.map (fun c => vStr (String.singleton c))) = true := by
  induction cs with
  | nil => rfl
  | cons c rest ih =>
      simp only [List.all_cons, Bool.and_eq_true] at h
      simp only [List.map_cons, noQList, Bool.and_eq_true]
      exact ⟨by simpa [noQVal, noQStr, String.singleton] using h.1, ih h.2⟩

theorem noQList_keys (d : List (String × Val)) (h : noQDict d = true) :
    noQList (d.map (fun p => vStr p.1)) = true := by
  induction d with
  | nil => rfl
  | cons p rest ih =>
      rcases p with ⟨k, v⟩
      simp only [noQDict, Bool.and_eq_true] at h
      simp only [List.map_cons, noQList, Bool.and_eq_true]
      exact ⟨by simpa [noQVal] using h.1.1, ih h.2⟩

theorem pyToList_noQ {v : Val} {l : List Val} (h : noQVal v = true)
    (hp : pyToList v = Except.ok l) : noQList l = true := by
  cases v with
  | vList l0 =>
      simp only [pyToList, pure, Except.pure, Except.ok.injEq] at hp
      subst hp
      simpa [noQVal] using h
  | vStr s =>
      simp only [pyToList, pure, Except.pure, Except.ok.injEq] at hp
      subst hp
      exact noQList_map_singleton s.data (by simpa [noQVal, noQStr] using h)
  | vDict d =>
      simp only [pyToList, pure, Except.pure, Except.ok.injEq] at hp
      subst hp
      exact noQList_keys d (by simpa [noQVal] using h)
  | vNull => simp [pyToList, throw, throwThe, MonadExceptOf.throw] at hp
  | vBool b => simp [pyToList, throw, throwThe, MonadExceptOf.throw] at hp
  | vInt n => simp [pyToList, throw, throwThe, MonadExceptOf.throw] at hp

theorem build_table_clause_countQ {t a : Val} {tc : String}
    (ht : noQVal t = true) (ha : noQVal a = true)
    (hp : build_table_clause t a = Except.ok tc) : countQ tc = 0 := by
  unfold build_table_clause at hp
  by_cases htr : pyTruthy a = true
  · rw [if_pos htr] at hp
    cases t with
    | vStr t0 =>
        simp only [pure, Except.pure, Except.ok.injEq] at hp
        subst hp
        rw [countQ_append, countQ_append,
          noQStr_countQ (by simpa [noQVal] using ht), pyStr_countQ a ha]
        rfl
    | vNull => simp [throw, throwThe, MonadExceptOf.throw] at hp
    | vBool b => simp [throw, throwThe, MonadExceptOf.throw] at hp
    | vInt n => simp [throw, throwThe, MonadExceptOf.throw] at hp
    | vList l => simp [throw, throwThe, MonadExceptOf.throw] at hp
    | vDict d => simp [throw, throwThe, MonadExceptOf.throw] at hp
  · rw [if_neg htr] at hp
    simp only [pure, Except.pure, Except.ok.injEq] at hp
    subst hp
    exact pyStr_countQ t ht

theorem parse_one_join_countQ {cfg : Cfg} {jn : Val} {cl : String}
    (h : noQVal jn = true) (hp : parse_one_join cfg jn = Except.ok cl) :
    countQ cl = 0 := by
  cases jn with
  | vDict d =>
      have hd : noQDict d = true := by simpa [noQVal] using h
      have hty : noQVal (dictGetD d "type" (vStr "INNER JOIN")) = true :=
        noQDict_getD hd rfl
      have htab : noQVal (dictGetD d "table" (vStr "")) = true :=
        noQDict_getD hd rfl
      have hali : noQVal (dictGetD d "alias" vNull) = true :=
        noQDict_getD hd rfl
      have hon : noQVal (dictGetD d "on" (vStr "")) = true :=
        noQDict_getD hd rfl
      unfold parse_one_join at hp
      dsimp only at hp
      cases hmt : dictGetD d "type" (vStr "INNER JOIN") with
      | vStr sty =>
          rw [hmt] at hp hty
          simp only [bind, Except.bind, pure, Except.pure,
            parse_table_with_alias] at hp
          split at hp
          · simp [throw, throwThe, MonadExceptOf.throw] at hp
          · split at hp
            · simp [throw, throwThe, MonadExceptOf.throw] at hp
            · cases hbt : build_table_clause (dictGetD d "table" (vStr ""))
                  (dictGetD d "alias" vNull) with
              | error e => rw [hbt] at hp; simp at hp
              | ok tc =>
                  rw [hbt] at hp
                  simp only [] at hp
                  split at hp
                  · simp [throw, throwThe, MonadExceptOf.throw] at hp
                  · simp only [Except.ok.injEq] at hp
                    subst hp
                    have h1 : countQ (pyUpper sty) = 0 := by
                      rw [countQ_pyUpper]
                      exact noQStr_countQ (by simpa [noQVal] using hty)
                    have h2 := build_table_clause_countQ htab hali hbt
                    have h3 : countQ (if pyTruthy (dictGetD d "on" (vStr "")) = true
                        then " ON " ++ pyStr (dictGetD d "on" (vStr "")) else "") = 0 := by
                      split
                      · rw [countQ_append, pyStr_countQ _ hon]
                        rfl
                      · rfl
                    simp [countQ_append, h1, h2, h3, countQ_space]
      | vNull => rw [hmt] at hp; simp [bind, Except.bind, throw, throwThe,
          MonadExceptOf.throw] at hp
      | vBool b => rw [hmt] at hp; simp [bind, Except.bind, throw, throwThe,
          MonadExceptOf.throw] at hp
      | vInt n => rw [hmt] at hp; simp [bind, Except.bind, throw, throwThe,
          MonadExceptOf.throw] at hp
      | vList l => rw [hmt] at hp; simp [bind, Except.bind, throw, throwThe,
          MonadExceptOf.throw] at hp
      | vDict d2 => rw [hmt] at hp; simp [bind, Except.bind, throw, throwThe,
          MonadExceptOf.throw] at hp
  | vNull => simp [parse_one_join, throw, throwThe, MonadExceptOf.throw] at hp
  | vBool b => simp [parse_one_join, throw, throwThe, MonadExceptOf.throw] at hp
  | vInt n => simp [parse_one_join, throw, throwThe, MonadExceptOf.throw] at hp
  | vStr s => simp [parse_one_join, throw, throwThe, MonadExceptOf.throw] at hp
  | vList l => simp [parse_one_join, throw, throwThe, MonadExceptOf.throw] at hp

theorem parse_joins_loop_countQ {cfg : Cfg} :
    ∀ {jl : List Val} {cls : List String}, noQList jl = true →
      parse_joins_loop cfg jl = Except.ok cls → sumCountQ cls = 0 := by
  intro jl
  induction jl with
  | nil =>
      intro cls _ hp
      simp only [parse_joins_loop, pure, Except.pure, Except.ok.injEq] at hp
      subst hp
      rfl
  | cons jn rest ih =>
      intro cls hno hp
      simp only [noQList, Bool.and_eq_true] at hno
      simp only [parse_joins_loop, bind, Except.bind] at hp
      cases h1 : parse_one_join cfg jn with
      | error e => rw [h1] at hp; simp at hp
      | ok c =>
          rw [h1] at hp
          cases h2 : parse_joins_loop cfg rest with
          | error e => rw [h2] at hp; simp at hp
          | ok cs =>
              rw [h2] at hp
              simp only [pure, Except.pure, Except.ok.injEq] at hp
              subst hp
              have := ih hno.2 h2
              simp [sumCountQ, parse_one_join_countQ hno.1 h1] at this ⊢
              exact this

theorem parse_joins_ok {cfg : Cfg} {v : Val} {s : String} {ps : List Val}
    (hp : parse_joins cfg v = Except.ok (s, ps)) (h : noQVal v = true) :
    countQ s = 0 ∧ ps = [] := by
  unfold parse_joins at hp
  by_cases htr : pyTruthy v = true
  · rw [if_neg (by simp [htr])] at hp
    simp only [bind, Except.bind] at hp
    cases hl : pyToList v with
    | error e => rw [hl] at hp; simp at hp
    | ok jl =>
        rw [hl] at hp
        dsimp only at hp
        cases hlp : parse_joins_loop cfg jl with
        | error e => rw [hlp] at hp; simp at hp
        | ok cls =>
            rw [hlp] at hp
            simp only [pure, Except.pure, Except.ok.injEq, Prod.mk.injEq] at hp
            obtain ⟨hs, hps⟩ := hp
            subst hs
            subst hps
            refine ⟨?_, rfl⟩
            rw [pyJoin_countQ " " rfl cls]
            exact parse_joins_loop_countQ (pyToList_noQ h hl) hlp
  · rw [if_pos (by simpa using htr)] at hp
    simp only [pure, Except.pure, Except.ok.injEq, Prod.mk.injEq] at hp
    obtain ⟨hs, hps⟩ := hp
    subst hs
    subst hps
    exact ⟨rfl, rfl⟩

theorem strList_countQ : ∀ {l : List Val} {ss : List String},
    strList l = Except.ok ss → noQList l = true → sumCountQ ss = 0 := by
  intro l
  induction l with
  | nil =>
      intro ss hp _
      simp only [strList, pure, Except.pure, Except.ok.injEq] at hp
      subst hp
      rfl
  | cons a rest ih =>
      intro ss hp hno
      simp only [noQList, Bool.and_eq_true] at hno
      cases a with
      | vStr s =>
          simp only [strList, bind, Except.bind] at hp
          cases hr : strList rest with
          | error e => rw [hr] at hp; simp at hp
          | ok rs =>
              rw [hr] at hp
              simp only [pure, Except.pure, Except.ok.injEq] at hp
              subst hp
              have h1 : countQ s = 0 := noQStr_countQ (by simpa [noQVal] using hno.1)
              have h2 := ih hr hno.2
              simp [sumCountQ, h1] at h2 ⊢
              exact h2
      | vNull => simp [strList, throw, throwThe, MonadExceptOf.throw] at hp
      | vBool b => simp [strList, throw, throwThe, MonadExceptOf.throw] at hp
      | vInt n => simp [strList, throw, throwThe, MonadExceptOf.throw] at hp
      | vList l2 => simp [strList, throw, throwThe, MonadExceptOf.throw] at hp
      | vDict d => simp [strList, throw, throwThe, MonadExceptOf.throw] at hp

theorem order_items_loop_countQ : ∀ {l : List Val} {os : List String},
    order_items_loop l = Except.ok os → noQList l = true → sumCountQ os = 0 := by
  intro l
  induction l with
  | nil =>
      intro os hp _
      simp only [order_items_loop, pure, Except.pure, Except.ok.injEq] at hp
      subst hp
      rfl
  | cons a rest ih =>
      intro os hp hno
      simp only [noQList, Bool.and_eq_true] at hno
      cases a with
      | vDict d =>
          have hdn : noQDict d = true := by simpa [noQVal] using hno.1
          have hcol : noQVal (dictGetD d "column" (vStr "")) = true :=
            noQDict_getD hdn rfl
          have hdir : noQVal (dictGetD d "direction" (vStr "ASC")) = true :=
            noQDict_getD hdn rfl
          simp only [order_items_loop, bind, Except.bind] at hp
          cases hmd : dictGetD d "direction" (vStr "ASC") with
          | vStr sd =>
              rw [hmd] at hp hdir
              dsimp only at hp
              cases hr : order_items_loop rest with
              | error e => rw [hr] at hp; simp [pure, Except.pure] at hp
              | ok rs =>
                  rw [hr] at hp
                  simp only [pure, Except.pure, Except.ok.injEq] at hp
                  subst hp
                  have hda : countQ (if pyUpper sd = "ASC" ∨ pyUpper sd = "DESC"
                      then pyUpper sd else "ASC") = 0 := by
                    split
                    · rw [countQ_pyUpper]
                      exact noQStr_countQ (by simpa [noQVal] using hdir)
                    · rfl
                  have h2 := ih hr hno.2
                  simp [sumCountQ, countQ_append, pyStr_countQ _ hcol,
                    countQ_space] at h2 ⊢
                  exact ⟨hda, h2⟩
          | vNull => rw [hmd] at hp; simp [throw, throwThe, MonadExceptOf.throw] at hp
          | vBool b => rw [hmd] at hp; simp [throw, throwThe, MonadExceptOf.throw] at hp
          | vInt n => rw [hmd] at hp; simp [throw, throwThe, MonadExceptOf.throw] at hp
          | vList l2 => rw [hmd] at hp; simp [throw, throwThe, MonadExceptOf.throw] at hp
          | vDict d2 => rw [hmd] at hp; simp [throw, throwThe, MonadExceptOf.throw] at hp
      | vNull =>
          simp only [order_items_loop, bind, Except.bind] at hp
          cases hr : order_items_loop rest with
          | error e => rw [hr] at hp; simp at hp
          | ok rs =>
              rw [hr] at hp
              simp only [pure, Except.pure, Except.ok.injEq] at hp
              subst hp
              have h2 := ih hr hno.2
              simp [sumCountQ, pyStr_countQ _ hno.1] at h2 ⊢
              exact h2
      | vBool b =>
          simp only [order_items_loop, bind, Except.bind] at hp
          cases hr : order_items_loop rest with
          | error e => rw [hr] at hp; simp at hp
          | ok rs =>
              rw [hr] at hp
              simp only [pure, Except.pure, Except.ok.injEq] at hp
              subst hp
              have h2 := ih hr hno.2
              simp [sumCountQ, pyStr_countQ _ hno.1] at h2 ⊢
              exact h2
      | vInt n =>
          simp only [order_items_loop, bind, Except.bind] at hp
          cases hr : order_items_loop rest with
          | error e => rw [hr] at hp; simp at hp
          | ok rs =>
              rw [hr] at hp
              simp only [pure, Except.pure, Except.ok.injEq] at hp
              subst hp
              have h2 := ih hr hno.2
              simp [sumCountQ, pyStr_countQ _ hno.1] at h2 ⊢
              exact h2
      | vStr s =>
          simp only [order_items_loop, bind, Except.bind] at hp
          cases hr : order_items_loop rest with
          | error e => rw [hr] at hp; simp at hp
          | ok rs =>
              rw [hr] at hp
              simp only [pure, Except.pure, Except.ok.injEq] at hp
              subst hp
              have h2 := ih hr hno.2
              simp [sumCountQ, pyStr_countQ _ hno.1] at h2 ⊢
              exact h2
      | vList l2 =>
          simp only [order_items_loop, bind, Except.bind] at hp
          cases hr : order_items_loop rest with
          | error e => rw [hr] at hp; simp at hp
          | ok rs =>
              rw [hr] at hp
              simp only [pure, Except.pure, Except.ok.injEq] at hp
              subst hp
              have h2 := ih hr hno.2
              simp [sumCountQ, pyStr_countQ _ hno.1] at h2 ⊢
              exact h2

theorem parse_table_with_alias_noQ {v t a : Val} (h : noQVal v = true)
    (hp : parse_table_with_alias v = Except.ok (t, a)) :
    noQVal t = true ∧ noQVal a = true := by
  cases v with
  | vStr s =>
      simp only [parse_table_with_alias, pure, Except.pure, Except.ok.injEq,
        Prod.mk.injEq] at hp
      obtain ⟨h1, h2⟩ := hp
      subst h1
      subst h2
      exact ⟨h, rfl⟩
  | vDict d =>
      have hd : noQDict d = true := by simpa [noQVal] using h
      simp only [parse_table_with_alias, pure, Except.pure, Except.ok.injEq,
        Prod.mk.injEq] at hp
      obtain ⟨h1, h2⟩ := hp
      subst h1
      subst h2
      exact ⟨noQDict_getD hd rfl, noQDict_getD hd rfl⟩
  | vNull => simp [parse_table_with_alias, throw, throwThe, MonadExceptOf.throw] at hp
  | vBool b => simp [parse_table_with_alias, throw, throwThe, MonadExceptOf.throw] at hp
  | vInt n => simp [parse_table_with_alias, throw, throwThe, MonadExceptOf.throw] at hp
  | vList l => simp [parse_table_with_alias, throw, throwThe, MonadExceptOf.throw] at hp

theorem from_component_countQ {cfg : Cfg} {j : List (String × Val)} {fc : String}
    (hp : from_component cfg j = Except.ok (Sum.inr fc)) (h : noQDict j = true) :
    countQ fc = 0 := by
  unfold from_component at hp
  by_cases hf : hasKey j "from" = true
  · rw [if_pos hf] at hp
    simp only [bind, Except.bind] at hp
    cases hti : parse_table_with_alias (dictGetD j "from" vNull) with
    | error e => rw [hti] at hp; simp at hp
    | ok ti =>
        rw [hti] at hp
        dsimp only at hp
        obtain ⟨ht, ha⟩ := parse_table_with_alias_noQ
          (@noQDict_getD j "from" vNull h rfl) (by rw [hti])
        split at hp
        · simp [pure, Except.pure] at hp
        · cases hbt : build_table_clause ti.1 ti.2 with
          | error e => rw [hbt] at hp; simp at hp
          | ok tc =>
              rw [hbt] at hp
              simp only [pure, Except.pure, Except.ok.injEq, Sum.inr.injEq] at hp
              subst hp
              rw [countQ_append, build_table_clause_countQ ht ha hbt]
              rfl
  · rw [if_neg hf] at hp
    by_cases htb : hasKey j "table" = true
    · rw [if_pos htb] at hp
      dsimp only at hp
      split at hp
      · simp [pure, Except.pure] at hp
      · simp only [pure, Except.pure, Except.ok.injEq, Sum.inr.injEq] at hp
        subst hp
        rw [countQ_append, pyStr_countQ _ (@noQDict_getD j "table" vNull h rfl)]
        rfl
    · rw [if_neg htb] at hp
      simp [pure, Except.pure] at hp

theorem where_component_countQ {cfg : Cfg} {j : List (String × Val)}
    {wc : String} {wp : List Val}
    (hp : where_component cfg j = Except.ok (Sum.inr (wc, wp))) (h : noQDict j = true) :
    countQ wc = wp.length := by
  unfold where_component at hp
  by_cases hw : hasKey j "where" = true
  · rw [if_pos hw] at hp
    simp only [bind, Except.bind] at hp
    cases hplc : parse_logic_condition (dictGetD j "where" vNull) with
    | error e => rw [hplc] at hp; simp at hp
    | ok pr =>
        rw [hplc] at hp
        dsimp only at hp
        have hcnt : countQ pr.1 = pr.2.length :=
          parse_logic_condition_countQ (by rw [hplc])
            (@noQDict_getD j "where" vNull h rfl)
        split at hp
        · simp only [pure, Except.pure, Except.ok.injEq, Sum.inr.injEq,
            Prod.mk.injEq] at hp
          obtain ⟨h1, h2⟩ := hp
          subst h1
          subst h2
          rfl
        · simp only [pure, Except.pure, Except.ok.injEq, Sum.inr.injEq,
            Prod.mk.injEq] at hp
          obtain ⟨h1, h2⟩ := hp
          subst h1
          subst h2
          rw [countQ_append, hcnt]
          simp [(show countQ "WHERE " = 0 from rfl)]
  · rw [if_neg hw] at hp
    by_cases hcl : (hasKey j "connection" && hasKey j "logic") = true
    · rw [if_pos hcl] at hp
      dsimp only at hp
      split at hp
      · simp [pure, Except.pure] at hp
      · simp only [bind, Except.bind] at hp
        cases hplc : parse_logic_condition (dictGetD j "logic" vNull) with
        | error e => rw [hplc] at hp; simp at hp
        | ok pr =>
            rw [hplc] at hp
            dsimp only at hp
            have hcnt : countQ pr.1 = pr.2.length :=
              parse_logic_condition_countQ (by rw [hplc])
                (@noQDict_getD j "logic" vNull h rfl)
            split at hp
            · simp only [pure, Except.pure, Except.ok.injEq, Sum.inr.injEq,
                Prod.mk.injEq] at hp
              obtain ⟨h1, h2⟩ := hp
              subst h1
              subst h2
              rfl
            · simp only [pure, Except.pure, Except.ok.injEq, Sum.inr.injEq,
                Prod.mk.injEq] at hp
              obtain ⟨h1, h2⟩ := hp
              subst h1
              subst h2
              rw [countQ_append, countQ_append, hcnt,
                pyStr_countQ _ (@noQDict_getD j "connection" vNull h rfl)]
              simp [countQ_space]
    · rw [if_neg hcl] at hp
      simp only [pure, Except.pure, Except.ok.injEq, Sum.inr.injEq,
        Prod.mk.injEq] at hp
      obtain ⟨h1, h2⟩ := hp
      subst h1
      subst h2
      rfl

theorem group_component_countQ {j : List (String × Val)} {gc : String}
    (hp : group_component j = Except.ok gc) (h : noQDict j = true) :
    countQ gc = 0 := by
  unfold group_component at hp
  by_cases hg : hasKey j "group_by" = true
  · rw [if_pos hg] at hp
    cases hm : dictGetD j "group_by" vNull with
    | vList l =>
        rw [hm] at hp
        simp only [bind, Except.bind] at hp
        cases hsl : strList l with
        | error e => rw [hsl] at hp; simp at hp
        | ok gs =>
            rw [hsl] at hp
            simp only [pure, Except.pure, Except.ok.injEq] at hp
            subst hp
            have hln : noQList l = true := by
              have := @noQDict_getD j "group_by" vNull h rfl
              rw [hm] at this
              simpa [noQVal] using this
            rw [countQ_append, pyJoin_countQ "," rfl, strList_countQ hsl hln]
            rfl
    | vNull => rw [hm] at hp; simp [pure, Except.pure] at hp; subst hp; rfl
    | vBool b => rw [hm] at hp; simp [pure, Except.pure] at hp; subst hp; rfl
    | vInt n => rw [hm] at hp; simp [pure, Except.pure] at hp; subst hp; rfl
    | vStr s => rw [hm] at hp; simp [pure, Except.pure] at hp; subst hp; rfl
    | vDict d => rw [hm] at hp; simp [pure, Except.pure] at hp; subst hp; rfl
  · rw [if_neg hg] at hp
    simp only [pure, Except.pure, Except.ok.injEq] at hp
    subst hp
    rfl

theorem having_component_countQ {j : List (String × Val)} {hc : String} {hps : List Val}
    (hp : having_component j = Except.ok (hc, hps)) (h : noQDict j = true) :
    countQ hc = hps.length := by
  unfold having_component at hp
  by_cases hh : hasKey j "having" = true
  · rw [if_pos hh] at hp
    simp only [bind, Except.bind] at hp
    cases hplc : parse_logic_condition (dictGetD j "having" vNull) with
    | error e => rw [hplc] at hp; simp at hp
    | ok pr =>
        rw [hplc] at hp
        dsimp only at hp
        have hcnt : countQ pr.1 = pr.2.length :=
          parse_logic_condition_countQ (by rw [hplc])
            (@noQDict_getD j "having" vNull h rfl)
        split at hp
        · simp only [pure, Except.pure, Except.ok.injEq, Prod.mk.injEq] at hp
          obtain ⟨h1, h2⟩ := hp
          subst h1
          subst h2
          rfl
        · simp only [pure, Except.pure, Except.ok.injEq, Prod.mk.injEq] at hp
          obtain ⟨h1, h2⟩ := hp
          subst h1
          subst h2
          rw [countQ_append, hcnt]
          simp [(show countQ "HAVING " = 0 from rfl)]
  · rw [if_neg hh] at hp
    simp only [pure, Except.pure, Except.ok.injEq, Prod.mk.injEq] at hp
    obtain ⟨h1, h2⟩ := hp
    subst h1
    subst h2
    rfl

theorem order_component_countQ {j : List (String × Val)} {oc : String}
    (hp : order_component j = Except.ok oc) (h : noQDict j = true) :
    countQ oc = 0 := by
  unfold order_component at hp
  by_cases ho : hasKey j "order_by" = true
  · rw [if_pos ho] at hp
    cases hm : dictGetD j "order_by" vNull with
    | vList l =>
        rw [hm] at hp
        simp only [bind, Except.bind] at hp
        cases hol : order_items_loop l with
        | error e => rw [hol] at hp; simp at hp
        | ok os =>
            rw [hol] at hp
            dsimp only at hp
            have hln : noQList l = true := by
              have := @noQDict_getD j "order_by" vNull h rfl
              rw [hm] at this
              simpa [noQVal] using this
            split at hp
            · simp only [pure, Except.pure, Except.ok.injEq] at hp
              subst hp
              rfl
            · simp only [pure, Except.pure, Except.ok.injEq] at hp
              subst hp
              rw [countQ_append, pyJoin_countQ "," rfl,
                order_items_loop_countQ hol hln]
              rfl
    | vNull => rw [hm] at hp; simp [pure, Except.pure] at hp; subst hp; rfl
    | vBool b => rw [hm] at hp; simp [pure, Except.pure] at hp; subst hp; rfl
    | vInt n => rw [hm] at hp; simp [pure, Except.pure] at hp; subst hp; rfl
    | vStr s => rw [hm] at hp; simp [pure, Except.pure] at hp; subst hp; rfl
    | vDict d => rw [hm] at hp; simp [pure, Except.pure] at hp; subst hp; rfl
  · rw [if_neg ho] at hp
    simp only [pure, Except.pure, Except.ok.injEq] at hp
    subst hp
    rfl

theorem limit_component_countQ (j : List (String × Val)) (h : noQDict j = true) :
    countQ (limit_component j) = 0 := by
  unfold limit_component
  dsimp only
  split
  · split
    · simp [countQ_append, pyStr_countQ _ (@noQDict_getD j "limit" vNull h rfl),
        (show countQ "LIMIT " = 0 from rfl)]
      split
      · split
        · simp [countQ_append,
            pyStr_countQ _ (@noQDict_getD j "offset" vNull h rfl),
            (show countQ " OFFSET " = 0 from rfl)]
        · rfl
      · rfl
    · rfl
  · rfl

theorem sumCountQ_filter_ne_empty : ∀ parts : List String,
    sumCountQ (parts.filter (fun p => p != "")) = sumCountQ parts := by
  intro parts
  induction parts with
  | nil => rfl
  | cons p rest ih =>
      by_cases hp : p = ""
      · subst hp
        simpa [List.filter, sumCountQ, (show countQ "" = 0 from rfl)] using ih
      · have hb : (p != "") = true := by simpa using hp
        simp only [List.filter, hb]
        simp only [sumCountQ, List.map_cons, List.sum_cons] at ih ⊢
        omega

theorem join_component_ok {cfg : Cfg} {j : List (String × Val)} {s : String}
    {ps : List Val} (hp : join_component cfg j = Except.ok (s, ps))
    (h : noQDict j = true) : countQ s = 0 ∧ ps = [] := by
  unfold join_component at hp
  split at hp
  · exact parse_joins_ok hp (@noQDict_getD j "joins" vNull h rfl)
  · simp only [pure, Except.pure, Except.ok.injEq, Prod.mk.injEq] at hp
    obtain ⟨h1, h2⟩ := hp
    subst h1
    subst h2
    exact ⟨rfl, rfl⟩

theorem sql_parse_extended_countQ {cfg : Cfg} {j : List (String × Val)}
    {sc sql : String} {ps : List Val}
    (hp : sql_parse_extended cfg j false sc = Except.ok (SQLResult.ok sql ps))
    (h : noQDict j = true) (hsc : countQ sc = 0) :
    countQ sql = ps.length := by
  unfold sql_parse_extended at hp
  simp only [bind, Except.bind] at hp
  cases hfr : from_component cfg j with
  | error e => rw [hfr] at hp; simp at hp
  | ok fres =>
      rw [hfr] at hp
      dsimp only at hp
      cases fres with
      | inl m => simp [pure, Except.pure] at hp
      | inr fc =>
          have hfc := from_component_countQ hfr h
          cases hj : join_component cfg j with
          | error e => rw [hj] at hp; simp at hp
          | ok jp =>
              rw [hj] at hp
              dsimp only at hp
              obtain ⟨hjc, hjp⟩ := join_component_ok (by rw [hj]) h
              cases hw : where_component cfg j with
              | error e => rw [hw] at hp; simp at hp
              | ok wres =>
                  rw [hw] at hp
                  dsimp only at hp
                  cases wres with
                  | inl m => simp [pure, Except.pure] at hp
                  | inr wp =>
                      have hwc := where_component_countQ (by rw [hw]) h
                      cases hg : group_component j with
                      | error e => rw [hg] at hp; simp at hp
                      | ok gc =>
                          rw [hg] at hp
                          dsimp only at hp
                          have hgc := group_component_countQ hg h
                          cases hh : having_component j with
                          | error e => rw [hh] at hp; simp at hp
                          | ok hv =>
                              rw [hh] at hp
                              dsimp only at hp
                              have hhc := having_component_countQ (by rw [hh]) h
                              cases ho : order_component j with
                              | error e => rw [ho] at hp; simp at hp
                              | ok oc =>
                                  rw [ho] at hp
                                  dsimp only at hp
                                  have hoc := order_component_countQ ho h
                                  have hlc := limit_component_countQ j h
                                  simp only [Bool.false_and] at hp
                                  rw [if_neg (by decide : ¬ ((false : Bool) = true))] at hp
                                  simp only [pure, Except.pure, Except.ok.injEq,
                                    SQLResult.ok.injEq] at hp
                                  obtain ⟨h1, h2⟩ := hp
                                  subst h1
                                  subst h2
                                  rw [pyJoin_countQ " " rfl, sumCountQ_filter_ne_empty]
                                  simp [sumCountQ, hsc, hfc, hjc, hjp, hwc, hgc,
                                    hhc, hoc, hlc]

theorem sql_parse_legacy_countQ {cfg : Cfg} {j : List (String × Val)}
    {sc sql : String} {ps : List Val}
    (hp : sql_parse_legacy cfg j false sc = Except.ok (SQLResult.ok sql ps))
    (h : noQDict j = true) (hsc : countQ sc = 0) :
    countQ sql = ps.length := by
  unfold sql_parse_legacy at hp
  split at hp
  · simp [pure, Except.pure] at hp
  · dsimp only at hp
    split at hp
    · simp [pure, Except.pure] at hp
    · have htab : countQ (pyStr (dictGetD j "table" vNull)) = 0 :=
        pyStr_countQ _ (@noQDict_getD j "table" vNull h rfl)
      split at hp
      · split at hp
        · simp [pure, Except.pure] at hp
        · simp only [bind, Except.bind] at hp
          cases hplc : parse_logic_condition (dictGetD j "logic" vNull) with
          | error e => rw [hplc] at hp; simp at hp
          | ok lp =>
              rw [hplc] at hp
              dsimp only at hp
              have hcnt : countQ lp.1 = lp.2.length :=
                parse_logic_condition_countQ (by rw [hplc])
                  (@noQDict_getD j "logic" vNull h rfl)
              simp only [Bool.false_and] at hp
              rw [if_neg (by decide : ¬ ((false : Bool) = true))] at hp
              simp only [pure, Except.pure, Except.ok.injEq,
                SQLResult.ok.injEq] at hp
              obtain ⟨h1, h2⟩ := hp
              subst h1
              subst h2
              split
              · rw [countQ_append, countQ_append, hsc, htab]
                rfl
              · simp [countQ_append, hsc, htab, hcnt, countQ_space,
                  (show countQ " FROM " = 0 from rfl),
                  pyStr_countQ _ (@noQDict_getD j "connection" vNull h rfl)]
      · simp only [pure, Except.pure, Except.ok.injEq, SQLResult.ok.injEq] at hp
        obtain ⟨h1, h2⟩ := hp
        subst h1
        subst h2
        rw [countQ_append, countQ_append, hsc, htab]
        rfl

theorem sql_parse_core_countQ {cfg : Cfg} {j : List (String × Val)}
    {sql : String} {ps : List Val}
    (hp : sql_parse_core cfg j false = Except.ok (SQLResult.ok sql ps))
    (h : noQDict j = true) : countQ sql = ps.length := by
  unfold sql_parse_core at hp
  split at hp
  · simp [pure, Except.pure] at hp
  · split at hp
    · simp [pure, Except.pure] at hp
    · dsimp only at hp
      split at hp
      · simp [pure, Except.pure] at hp
      · cases hm : dictGetD j "items" vNull with
        | vList itemsL =>
            rw [hm] at hp
            dsimp only at hp
            have hil : noQList itemsL = true := by
              have := @noQDict_getD j "items" vNull h rfl
              rw [hm] at this
              simpa [noQVal] using this
            split at hp
            · simp [pure, Except.pure] at hp
            · simp only [bind, Except.bind] at hp
              cases hsl : strList itemsL with
              | error e => rw [hsl] at hp; simp at hp
              | ok itemStrs =>
                  rw [hsl] at hp
                  dsimp only at hp
                  have hsc : countQ (pyStr (dictGetD j "query" vNull) ++ " " ++
                      pyJoin "," itemStrs) = 0 := by
                    rw [countQ_append, countQ_append,
                      pyStr_countQ _ (@noQDict_getD j "query" vNull h rfl),
                      pyJoin_countQ "," rfl, strList_countQ hsl hil]
                    rfl
                  split at hp
                  · exact sql_parse_extended_countQ hp h hsc
                  · exact sql_parse_legacy_countQ hp h hsc
        | vNull => rw [hm] at hp; simp [pure, Except.pure] at hp
        | vBool b => rw [hm] at hp; simp [pure, Except.pure] at hp
        | vInt n => rw [hm] at hp; simp [pure, Except.pure] at hp
        | vStr s => rw [hm] at hp; simp [pure, Except.pure] at hp
        | vDict d => rw [hm] at hp; simp [pure, Except.pure] at hp

/-- C1 counterexample: caller-supplied text copied verbatim into the SQL
can itself contain `?`.  The accepted legacy request with column name `a?`
compiles to `SELECT * FROM users WHERE a? = ?` — 2 `?` characters but only
1 parameter — refuting the unconditional round-trip claim. -/
theorem c1_round_trip_counterexample :
    sql_parse cfgWild (vDict [("query", vStr "SELECT"), ("items", vList [vStr "*"]),
        ("table", vStr "users"), ("connection", vStr "WHERE"),
        ("logic", vDict [("a?", vDict [("=", vInt 1)])])]) false =
      SQLResult.ok "SELECT * FROM users WHERE a? = ?" [vInt 1] ∧
    countQ "SELECT * FROM users WHERE a? = ?" = 2 :=
  ⟨rfl, rfl⟩

/-- C1 amended: for every accepted request (placeholder mode) none of
whose strings contain the `?` character, the number of `?` placeholders in
the returned SQL equals the length of the returned parameter sequence;
each `?` arises from exactly one appended parameter in clause order, so
the parameters line up positionally with the placeholders. -/
theorem c1_round_trip_amended (cfg : Cfg) (req : Val) (sql : String) (ps : List Val)
    (hq : noQVal req = true) (hp : sql_parse cfg req false = SQLResult.ok sql ps) :
    countQ sql = ps.length := by
  cases req with
  | vDict j =>
      unfold sql_parse at hp
      dsimp only at hp
      cases hc : sql_parse_core cfg j false with
      | error e => rw [hc] at hp; simp at hp
      | ok r =>
          rw [hc] at hp
          cases r with
          | fail m => simp at hp
          | ok s p =>
              simp only [SQLResult.ok.injEq] at hp
              obtain ⟨h1, h2⟩ := hp
              subst h1
              subst h2
              exact sql_parse_core_countQ hc (by simpa [noQVal] using hq)
  | vNull => simp [sql_parse] at hp
  | vBool b => simp [sql_parse] at hp
  | vInt n => simp [sql_parse] at hp
  | vStr s => simp [sql_parse] at hp
  | vList l => simp [sql_parse] at hp

/-- C1 witness: a concrete accepted extended request with a join, a WHERE
tree and a HAVING tree; the theorem yields 2 placeholders for its 2
parameters, matching direct evaluation. -/
theorem c1_round_trip_amended_witness :
    countQ "SELECT * FROM users INNER JOIN users ON a = b WHERE x = ? HAVING y > ?" =
      [vInt 1, vInt 2].length := by
  have h := c1_round_trip_amended cfgWild
    (vDict [("query", vStr "SELECT"), ("items", vList [vStr "*"]),
      ("from", vStr "users"),
      ("joins", vList [vDict [("table", vStr "users"), ("on", vStr "a = b")]]),
      ("where", vDict [("x", vDict [("=", vInt 1)])]),
      ("having", vDict [("y", vDict [(">", vInt 2)])])])
    "SELECT * FROM users INNER JOIN users ON a = b WHERE x = ? HAVING y > ?"
    [vInt 1, vInt 2] (by decide) rfl
  exact h

end JsonSQLModel
